import Mathlib

/-!
Verification of the `wasm-imports-parser` JavaScript library.

This file gives a shallow embedding of `parseImports` and its helpers
(`ParseState.readByte`, `ParseState.skipBytes`, `ParseState.readUnsignedLEB128`,
`ParseState.readName`, `ParseState.assertBytes`, `parseMagicNumber`,
`parseVersion`, `parseValueType`, `parseFunctionType`, `parseLimits`,
`parseTableType`, `parseGlobalType` from `index.js`) and proves the spec's
claims about them.

Modelling conventions, chosen to follow the JavaScript semantics of the
source:
* A `Uint8Array` is a `List Nat`; indexing out of range (including negative
  indices) yields JavaScript `undefined`, modelled as `none : Option Nat`.
* JavaScript bitwise operators (`|`, `&`, `<<`) work on 32-bit signed
  integers; `toUInt32`/`toInt32`/`jsOr`/`jsShl` reproduce that (ToInt32 of
  `undefined` is 0, hence `Option.getD 0`).
* The cursor offset is an `Int`: `skipBytes` adds an arbitrary (possibly
  negative) 32-bit value to it, exactly as `this.offset += count` does.
* `TypedArray.prototype.slice` clamping (negative and beyond-length
  endpoints) is reproduced by `jsSlice`.
* Strings produced by `TextDecoder` are modelled by their byte sequences
  (`List Nat`); the claims under study only compare names for structural
  equality, which the byte sequences decide.
* The unbounded `while` loops of the source are given explicit fuel.
  `readUnsignedLEB128` advances by one byte per iteration and stops at the
  first out-of-bounds read, so fuel `bytes.length + 1` is always sufficient
  and the embedding is exact.  The section loop of `parseImports` can fail
  to progress only when a skip with a negative 32-bit section size moves the
  cursor backwards, in which case the JavaScript loops for ~2^31 iterations;
  with fuel `bytes.length + 1` such runs answer `outOfFuel`, and every
  forward-progress run (each iteration consumes at least two bytes) is
  reproduced exactly.
* JavaScript `throw` is modelled by `Except ParseErr`; each constructor of
  `ParseErr` corresponds to one `throw new Error(...)` site of the source.
-/

namespace WasmImports

/-- Unsigned 32-bit reduction: JavaScript ToUint32. -/
def toUInt32 (n : Int) : Nat := (n % 4294967296).toNat

/-- Signed 32-bit reduction: JavaScript ToInt32. -/
def toInt32 (n : Int) : Int :=
  let m := toUInt32 n
  if m < 2147483648 then (m : Int) else (m : Int) - 4294967296

/-- JavaScript `a | b` on numbers (32-bit signed bitwise or). -/
def jsOr (a b : Int) : Int := toInt32 ((toUInt32 a ||| toUInt32 b : Nat) : Int)

/-- JavaScript `a << s` on numbers (32-bit signed shift; shift count mod 32). -/
def jsShl (a : Int) (s : Nat) : Int := toInt32 ((toUInt32 a <<< (s % 32) : Nat) : Int)

/-- JavaScript indexing `bytes[i]` on a `Uint8Array`: `undefined` (here `none`)
out of range, including negative indices. -/
def jsGet (bytes : List Nat) (i : Int) : Option Nat :=
  if 0 ≤ i then bytes.get? i.toNat else none

/-- Index normalization of `TypedArray.prototype.slice`: negative indices
count from the end, and indices are clamped to `[0, len]`. -/
def jsSliceIndex (len : Nat) (i : Int) : Nat :=
  if i < 0 then ((len : Int) + i).toNat else min i.toNat len

/-- JavaScript `bytes.slice(start, fin)` on a `Uint8Array`. -/
def jsSlice (bytes : List Nat) (start fin : Int) : List Nat :=
  let k := jsSliceIndex bytes.length start
  let f := jsSliceIndex bytes.length fin
  (bytes.drop k).take (f - k)

/-- One `throw new Error(...)` site of `index.js` per constructor. -/
inductive ParseErr where
  /-- `assertBytes`: `Expected ${expected} at offset ${baseOffset}`. -/
  | expectedBytes (expected : List Nat) (offset : Int)
  /-- `parseImports`: `Unknown import descriptor type ${type}`. -/
  | unknownImportDescriptor (t : Option Nat)
  /-- `parseTableType`: `Unknown table element type ${elementType}`. -/
  | unknownTableElementType (t : Option Nat)
  /-- `parseValueType`: `Unknown value type ${type}`. -/
  | unknownValueType (t : Option Nat)
  /-- `parseFunctionType`: `Expected function type form 0x60, got ${form}`. -/
  | invalidFunctionTypeForm (t : Option Nat)
  /-- `parseImports`: `Argument must be a buffer source, like Uint8Array or ArrayBuffer`. -/
  | invalidArgumentType
  /-- Modelling artifact: the section loop ran out of fuel (only reachable
  when a negative section size makes the JavaScript loop move backwards). -/
  | outOfFuel
  deriving DecidableEq, Repr

/-- Record produced by `parseFunctionType`: `{ parameters, results }`.
Value types are the strings the source uses (`"i32"`, `"funcref"`, ...). -/
structure FunctionType where
  parameters : List String
  results : List String
  deriving DecidableEq, Repr

/-- Record produced by `parseTableType`: `{ element, minimum[, maximum] }`. -/
structure TableType where
  element : String
  minimum : Int
  maximum : Option Int
  deriving DecidableEq, Repr

/-- Record produced by `parseLimits`:
`{ minimum, shared, index[, maximum] }` (used as a memory type). -/
structure MemoryType where
  minimum : Int
  shared : Bool
  index : String
  maximum : Option Int
  deriving DecidableEq, Repr

/-- Record produced by `parseGlobalType`: `{ value, mutable }`. -/
structure GlobalType where
  value : String
  mutable : Bool
  deriving DecidableEq, Repr

/-- Payload of an import entry.  A function import's payload is
`types[index]`, which is `undefined` (`none`) when the index is out of
range. -/
inductive ImportType where
  | function (t : Option FunctionType)
  | table (t : TableType)
  | memory (t : MemoryType)
  | global (t : GlobalType)
  deriving DecidableEq, Repr

/-- Record pushed by `parseImports`: `{ module, name, kind, type }`. -/
structure ImportEntry where
  module : List Nat
  name : List Nat
  kind : String
  type : ImportType
  deriving DecidableEq, Repr

/-- Method `ParseState.readByte`: `return this.moduleBytes[this.offset++]`.
Returns the byte (or `undefined`) and the incremented offset. -/
def readByte (bytes : List Nat) (offset : Int) : Option Nat × Int :=
  (jsGet bytes offset, offset + 1)

/-- Method `ParseState.skipBytes`: `this.offset += count`. -/
def skipBytes (offset count : Int) : Int := offset + count

/-- Method `ParseState.hasMoreBytes`: `this.offset < this.moduleBytes.length`. -/
def hasMoreBytes (bytes : List Nat) (offset : Int) : Bool :=
  offset < (bytes.length : Int)

/-- Loop body of `ParseState.readUnsignedLEB128`.  Each iteration performs
`byte = this.readByte(); result |= (byte & 0x7F) << shift; shift += 7`
and continues while `byte & 0x80` is nonzero.  The fuel argument is a
modelling device; `readUnsignedLEB128` passes `bytes.length + 1`, which is
always enough because every iteration advances the offset and the loop stops
at the first out-of-bounds read. -/
def readUnsignedLEB128Aux (bytes : List Nat) :
    Nat → Int → Nat → Int → Int × Int
  | 0, offset, _, result => (result, offset)
  | fuel + 1, offset, shift, result =>
    let b := jsGet bytes offset
    let result' := jsOr result (jsShl ((b.getD 0 &&& 127 : Nat) : Int) shift)
    if b.getD 0 &&& 128 ≠ 0 then
      readUnsignedLEB128Aux bytes fuel (offset + 1) (shift + 7) result'
    else
      (result', offset + 1)

/-- Method `ParseState.readUnsignedLEB128`. -/
def readUnsignedLEB128 (bytes : List Nat) (offset : Int) : Int × Int :=
  readUnsignedLEB128Aux bytes (bytes.length + 1) offset 0 0

/-- Method `ParseState.readName`: reads a LEB128 length, slices that many
bytes and advances the offset by the length.  The `TextDecoder` step is
modelled by keeping the byte sequence. -/
def readName (bytes : List Nat) (offset : Int) : List Nat × Int :=
  let r := readUnsignedLEB128 bytes offset
  let nameBytes := jsSlice bytes r.2 (r.2 + r.1)
  (nameBytes, r.2 + r.1)

/-- Comparison loop of `ParseState.assertBytes`:
`this.moduleBytes[baseOffset + i] !== expected[i]` for each `i`. -/
def checkBytes (bytes : List Nat) (base : Int) : List Nat → Nat → Bool
  | [], _ => true
  | e :: rest, i =>
    (jsGet bytes (base + (i : Int)) == some e) && checkBytes bytes base rest (i + 1)

/-- Method `ParseState.assertBytes`: throws
`Expected ${expected} at offset ${baseOffset}` at a mismatch, otherwise
advances the offset past the expected bytes. -/
def assertBytes (bytes : List Nat) (offset : Int) (expected : List Nat) :
    Except ParseErr Int :=
  if checkBytes bytes offset expected 0 then
    .ok (offset + (expected.length : Int))
  else
    .error (.expectedBytes expected offset)

/-- Function `parseMagicNumber`: asserts `[0x00, 0x61, 0x73, 0x6D]`. -/
def parseMagicNumber (bytes : List Nat) (offset : Int) : Except ParseErr Int :=
  assertBytes bytes offset [0x00, 0x61, 0x73, 0x6D]

/-- Function `parseVersion`: asserts `[0x01, 0x00, 0x00, 0x00]`. -/
def parseVersion (bytes : List Nat) (offset : Int) : Except ParseErr Int :=
  assertBytes bytes offset [0x01, 0x00, 0x00, 0x00]

/-- Function `parseValueType`: a single byte, mapped by the switch of the
source; an unmapped byte (including `undefined`) throws. -/
def parseValueType (bytes : List Nat) (offset : Int) :
    Except ParseErr (String × Int) :=
  let r := readByte bytes offset
  if r.1 = some 0x7F then .ok ("i32", r.2)
  else if r.1 = some 0x7E then .ok ("i64", r.2)
  else if r.1 = some 0x7D then .ok ("f32", r.2)
  else if r.1 = some 0x7C then .ok ("f64", r.2)
  else if r.1 = some 0x70 then .ok ("funcref", r.2)
  else if r.1 = some 0x6F then .ok ("externref", r.2)
  else if r.1 = some 0x7B then .ok ("v128", r.2)
  else .error (.unknownValueType r.1)

/-- Count-controlled loop `for (let i = 0; i < count; i++) push(parseValueType())`
from `parseFunctionType` (a negative count runs zero iterations, hence the
caller passes `Int.toNat` of the decoded count). -/
def parseValueTypes (bytes : List Nat) (offset : Int) :
    Nat → Except ParseErr (List String × Int)
  | 0 => .ok ([], offset)
  | count + 1 =>
    match parseValueType bytes offset with
    | .error e => .error e
    | .ok (v, o) =>
      match parseValueTypes bytes o count with
      | .error e => .error e
      | .ok (vs, o') => .ok (v :: vs, o')

/-- Function `parseFunctionType`: form byte `0x60`, then count-prefixed
parameters, then count-prefixed results. -/
def parseFunctionType (bytes : List Nat) (offset : Int) :
    Except ParseErr (FunctionType × Int) :=
  let r := readByte bytes offset
  if r.1 = some 0x60 then
    let pc := readUnsignedLEB128 bytes r.2
    match parseValueTypes bytes pc.2 pc.1.toNat with
    | .error e => .error e
    | .ok (params, o1) =>
      let rc := readUnsignedLEB128 bytes o1
      match parseValueTypes bytes rc.2 rc.1.toNat with
      | .error e => .error e
      | .ok (results, o2) => .ok (⟨params, results⟩, o2)
  else
    .error (.invalidFunctionTypeForm r.1)

/-- Type-section loop `for (let i = 0; i < typeCount; i++) types.push(parseFunctionType())`. -/
def parseFunctionTypes (bytes : List Nat) (offset : Int) :
    Nat → Except ParseErr (List FunctionType × Int)
  | 0 => .ok ([], offset)
  | count + 1 =>
    match parseFunctionType bytes offset with
    | .error e => .error e
    | .ok (ft, o) =>
      match parseFunctionTypes bytes o count with
      | .error e => .error e
      | .ok (fts, o') => .ok (ft :: fts, o')

/-- Function `parseLimits`: flags byte, LEB128 minimum, flag-dependent
LEB128 maximum; `shared` is bit 1, `index` is `"i64"` iff bit 2. -/
def parseLimits (bytes : List Nat) (offset : Int) : MemoryType × Int :=
  let r := readByte bytes offset
  let flags := r.1.getD 0
  let mn := readUnsignedLEB128 bytes r.2
  let shared : Bool := flags &&& 2 ≠ 0
  let index : String := if flags &&& 4 ≠ 0 then "i64" else "i32"
  if flags &&& 1 ≠ 0 then
    let mx := readUnsignedLEB128 bytes mn.2
    (⟨mn.1, shared, index, some mx.1⟩, mx.2)
  else
    (⟨mn.1, shared, index, none⟩, mn.2)

/-- Truthiness test `if (maximum)` of `parseTableType`: an absent maximum and
a zero maximum are both falsy. -/
def jsTruthy (o : Option Int) : Bool :=
  match o with
  | some m => m ≠ 0
  | none => false

/-- Function `parseTableType`: element-type byte restricted to
`0x70`/`0x6F`, then `parseLimits`; the `maximum` field is kept only when
truthy (`if (maximum)` in the source). -/
def parseTableType (bytes : List Nat) (offset : Int) :
    Except ParseErr (TableType × Int) :=
  let r := readByte bytes offset
  let element : Except ParseErr String :=
    if r.1 = some 0x70 then .ok "funcref"
    else if r.1 = some 0x6F then .ok "externref"
    else .error (.unknownTableElementType r.1)
  match element with
  | .error e => .error e
  | .ok el =>
    let lim := parseLimits bytes r.2
    if jsTruthy lim.1.maximum then
      .ok (⟨el, lim.1.minimum, lim.1.maximum⟩, lim.2)
    else
      .ok (⟨el, lim.1.minimum, none⟩, lim.2)

/-- Function `parseGlobalType`: a value type and a mutability byte
(`mutable` iff the byte strictly equals `1`). -/
def parseGlobalType (bytes : List Nat) (offset : Int) :
    Except ParseErr (GlobalType × Int) :=
  match parseValueType bytes offset with
  | .error e => .error e
  | .ok (v, o) =>
    let r := readByte bytes o
    .ok (⟨v, r.1 == some 1⟩, r.2)

/-- Index lookup `types[index]` of the function-import case: `undefined`
(`none`) for a negative or out-of-range index. -/
def jsIndex (types : List FunctionType) (i : Int) : Option FunctionType :=
  if 0 ≤ i then types.get? i.toNat else none

/-- Body of the import-entry loop of `parseImports`: two names, a kind
discriminant byte, then the kind-specific payload. -/
def parseImportEntry (bytes : List Nat) (offset : Int)
    (types : List FunctionType) : Except ParseErr (ImportEntry × Int) :=
  let m := readName bytes offset
  let n := readName bytes m.2
  let r := readByte bytes n.2
  if r.1 = some 0x00 then
    let idx := readUnsignedLEB128 bytes r.2
    .ok (⟨m.1, n.1, "function", .function (jsIndex types idx.1)⟩, idx.2)
  else if r.1 = some 0x01 then
    match parseTableType bytes r.2 with
    | .error e => .error e
    | .ok (tt, o) => .ok (⟨m.1, n.1, "table", .table tt⟩, o)
  else if r.1 = some 0x02 then
    let lim := parseLimits bytes r.2
    .ok (⟨m.1, n.1, "memory", .memory lim.1⟩, lim.2)
  else if r.1 = some 0x03 then
    match parseGlobalType bytes r.2 with
    | .error e => .error e
    | .ok (gt, o) => .ok (⟨m.1, n.1, "global", .global gt⟩, o)
  else
    .error (.unknownImportDescriptor r.1)

/-- Import-section loop `for (let i = 0; i < importCount; i++)`. -/
def parseImportEntries (bytes : List Nat) (offset : Int)
    (types : List FunctionType) :
    Nat → Except ParseErr (List ImportEntry × Int)
  | 0 => .ok ([], offset)
  | count + 1 =>
    match parseImportEntry bytes offset types with
    | .error e => .error e
    | .ok (entry, o) =>
      match parseImportEntries bytes o types count with
      | .error e => .error e
      | .ok (es, o') => .ok (entry :: es, o')

/-- Section loop of `parseImports`: while bytes remain, read a section id and
size; a type section (id 1) extends the function-type list, an import
section (id 2) decodes its entries and returns them immediately, and any
other section is skipped by its size.  Fuel is a modelling device (see the
module docstring). -/
def parseSections (bytes : List Nat) :
    Nat → Int → List FunctionType → Except ParseErr (List ImportEntry)
  | 0, _, _ => .error .outOfFuel
  | fuel + 1, offset, types =>
    if hasMoreBytes bytes offset then
      let r := readByte bytes offset
      let sz := readUnsignedLEB128 bytes r.2
      if r.1 = some 1 then
        let cnt := readUnsignedLEB128 bytes sz.2
        match parseFunctionTypes bytes cnt.2 cnt.1.toNat with
        | .error e => .error e
        | .ok (newTypes, o) => parseSections bytes fuel o (types ++ newTypes)
      else if r.1 = some 2 then
        let cnt := readUnsignedLEB128 bytes sz.2
        match parseImportEntries bytes cnt.2 types cnt.1.toNat with
        | .error e => .error e
        | .ok (imports, _) => .ok imports
      else
        parseSections bytes fuel (skipBytes sz.2 sz.1) types
    else
      .ok []

/-- Function `parseImports` after input normalization: header checks, then
the section loop starting with an empty type list. -/
def parseImportsBytes (bytes : List Nat) : Except ParseErr (List ImportEntry) :=
  match parseMagicNumber bytes 0 with
  | .error e => .error e
  | .ok o1 =>
    match parseVersion bytes o1 with
    | .error e => .error e
    | .ok o2 => parseSections bytes (bytes.length + 1) o2 []

/-- Argument shapes accepted by `parseImports`.  A typed-array or `DataView`
argument carries its underlying buffer, of which
`new Uint8Array(moduleBytes.buffer)` takes the whole extent. -/
inductive BufferSource where
  | uint8Array (bytes : List Nat)
  | arrayBuffer (bytes : List Nat)
  | typedArrayView (buffer : List Nat)
  | dataView (buffer : List Nat)
  | notABuffer
  deriving DecidableEq, Repr

/-- Exported function `parseImports`: input normalization as in the source
(`Uint8Array` used as is; `ArrayBuffer`, typed-array and `DataView`
arguments wrapped into a `Uint8Array` over the underlying buffer; anything
else throws), then the decode. -/
def parseImports (source : BufferSource) : Except ParseErr (List ImportEntry) :=
  match source with
  | .uint8Array bytes => parseImportsBytes bytes
  | .arrayBuffer bytes => parseImportsBytes bytes
  | .typedArrayView buffer => parseImportsBytes buffer
  | .dataView buffer => parseImportsBytes buffer
  | .notABuffer => .error .invalidArgumentType

/-- The eight fixed header bytes: magic number then version. -/
def wasmHeader : List Nat := [0x00, 0x61, 0x73, 0x6D, 0x01, 0x00, 0x00, 0x00]

/-- Byte strings that are an unsigned LEB128 encoding of `n`, including
non-minimal encodings padded with superfluous zero groups. -/
inductive IsLEB : Nat → List Nat → Prop where
  | last (b : Nat) : b < 128 → IsLEB b [b]
  | cont (b m : Nat) (rest : List Nat) : b < 128 → IsLEB m rest →
      IsLEB (b + 128 * m) ((b + 128) :: rest)

/-- Byte strings encoding the name `s` (a LEB128 length prefix followed by
the name's bytes). -/
def NameEnc (s enc : List Nat) : Prop :=
  ∃ lenEnc, IsLEB s.length lenEnc ∧ s.length < 2147483648 ∧ enc = lenEnc ++ s

/-- The value-type byte mapping of `parseValueType`. -/
def IsVT (b : Nat) (v : String) : Prop :=
  (b = 0x7F ∧ v = "i32") ∨ (b = 0x7E ∧ v = "i64") ∨ (b = 0x7D ∧ v = "f32") ∨
    (b = 0x7C ∧ v = "f64") ∨ (b = 0x70 ∧ v = "funcref") ∨
    (b = 0x6F ∧ v = "externref") ∨ (b = 0x7B ∧ v = "v128")

/-- Byte strings from which `parseLimits` produces the record `mt`:
a flags byte, a LEB128 minimum and, when flag bit 0 is set, a LEB128
maximum. -/
def LimitsEnc (mt : MemoryType) (enc : List Nat) : Prop :=
  ∃ flags minEnc minN,
    IsLEB minN minEnc ∧ minN < 2147483648 ∧
      ((flags &&& 1 = 0 ∧ enc = flags :: minEnc ∧
          mt = ⟨(minN : Int), decide (flags &&& 2 ≠ 0),
            if flags &&& 4 ≠ 0 then "i64" else "i32", none⟩) ∨
        (flags &&& 1 ≠ 0 ∧ ∃ maxEnc maxN, IsLEB maxN maxEnc ∧ maxN < 2147483648 ∧
          enc = flags :: (minEnc ++ maxEnc) ∧
          mt = ⟨(minN : Int), decide (flags &&& 2 ≠ 0),
            if flags &&& 4 ≠ 0 then "i64" else "i32", some (maxN : Int)⟩))

/-- Byte strings from which `parseTableType` produces the record `tt`:
an element-type byte and a limits record, keeping `maximum` only when it is
truthy. -/
def TableEnc (tt : TableType) (enc : List Nat) : Prop :=
  ∃ eb el mt rest,
    ((eb = 0x70 ∧ el = "funcref") ∨ (eb = 0x6F ∧ el = "externref")) ∧
      LimitsEnc mt rest ∧ enc = eb :: rest ∧
      tt = ⟨el, mt.minimum, if jsTruthy mt.maximum then mt.maximum else none⟩

/-- Byte strings from which `parseGlobalType` produces the record `gt`:
a value-type byte and a mutability byte. -/
def GlobalEnc (gt : GlobalType) (enc : List Nat) : Prop :=
  ∃ vb v mb, IsVT vb v ∧ enc = [vb, mb] ∧ gt = ⟨v, decide (mb = 1)⟩

/-- Byte strings from which `parseFunctionType` produces `ft`: the form byte
`0x60`, a count-prefixed parameter list and a count-prefixed result list. -/
def FTEnc (ft : FunctionType) (enc : List Nat) : Prop :=
  ∃ pcEnc pbs rcEnc rbs,
    IsLEB ft.parameters.length pcEnc ∧ ft.parameters.length < 2147483648 ∧
      List.Forall₂ IsVT pbs ft.parameters ∧
      IsLEB ft.results.length rcEnc ∧ ft.results.length < 2147483648 ∧
      List.Forall₂ IsVT rbs ft.results ∧
      enc = 0x60 :: (pcEnc ++ (pbs ++ (rcEnc ++ rbs)))

/-- Concatenated encodings of a list of function types. -/
inductive FTsEnc : List FunctionType → List Nat → Prop where
  | nil : FTsEnc [] []
  | cons {ft fts enc rest} : FTEnc ft enc → FTsEnc fts rest →
      FTsEnc (ft :: fts) (enc ++ rest)

/-- Byte strings from which the import-entry loop produces the entry, given
the function-type list `types` decoded so far.  A function import's payload
is `types[i]`, which is `none` when `i` is out of range. -/
inductive EntryEnc (types : List FunctionType) : ImportEntry → List Nat → Prop where
  | function {m n mEnc nEnc i idxEnc} :
      NameEnc m mEnc → NameEnc n nEnc → IsLEB i idxEnc → i < 2147483648 →
      EntryEnc types ⟨m, n, "function", .function (types.get? i)⟩
        (mEnc ++ (nEnc ++ (0x00 :: idxEnc)))
  | table {m n mEnc nEnc tt tEnc} :
      NameEnc m mEnc → NameEnc n nEnc → TableEnc tt tEnc →
      EntryEnc types ⟨m, n, "table", .table tt⟩ (mEnc ++ (nEnc ++ (0x01 :: tEnc)))
  | memory {m n mEnc nEnc mt lEnc} :
      NameEnc m mEnc → NameEnc n nEnc → LimitsEnc mt lEnc →
      EntryEnc types ⟨m, n, "memory", .memory mt⟩ (mEnc ++ (nEnc ++ (0x02 :: lEnc)))
  | global {m n mEnc nEnc gt gEnc} :
      NameEnc m mEnc → NameEnc n nEnc → GlobalEnc gt gEnc →
      EntryEnc types ⟨m, n, "global", .global gt⟩ (mEnc ++ (nEnc ++ (0x03 :: gEnc)))

/-- Concatenated encodings of a list of import entries. -/
inductive EntriesEnc (types : List FunctionType) :
    List ImportEntry → List Nat → Prop where
  | nil : EntriesEnc types [] []
  | cons {e es enc rest} : EntryEnc types e enc → EntriesEnc types es rest →
      EntriesEnc types (e :: es) (enc ++ rest)

/-- Well-formed sections preceding the import section: `k` counts them,
the type list collects the function types they declare in order.  A type
section is id 1 with a (permitted but unused) size and its function types;
any other section is its id, its size, and exactly that many payload
bytes. -/
inductive SecsEnc : Nat → List FunctionType → List Nat → Prop where
  | nil : SecsEnc 0 [] []
  | typeSec {k sz szEnc fts cntEnc ftsBytes ts rest} :
      IsLEB sz szEnc → sz < 2147483648 →
      IsLEB fts.length cntEnc → fts.length < 2147483648 →
      FTsEnc fts ftsBytes → SecsEnc k ts rest →
      SecsEnc (k + 1) (fts ++ ts) (0x01 :: (szEnc ++ (cntEnc ++ (ftsBytes ++ rest))))
  | otherSec {k sid body szEnc ts rest} :
      sid ≠ 1 → sid ≠ 2 → IsLEB body.length szEnc → body.length < 2147483648 →
      SecsEnc k ts rest →
      SecsEnc (k + 1) ts (sid :: (szEnc ++ (body ++ rest)))

/-- Shape invariant of decoded entries: the `kind` string is one of the
four import kinds and the `type` payload is the matching record. -/
def GoodEntry (e : ImportEntry) : Prop :=
  (e.kind = "function" ∧ ∃ t, e.type = ImportType.function t) ∨
    (e.kind = "table" ∧ ∃ t, e.type = ImportType.table t) ∨
    (e.kind = "memory" ∧ ∃ t, e.type = ImportType.memory t) ∨
    (e.kind = "global" ∧ ∃ t, e.type = ImportType.global t)

/-! Arithmetic facts about the 32-bit reductions. -/

theorem toUInt32_natCast (x : Nat) (h : x < 4294967296) : toUInt32 (x : Int) = x := by
  unfold toUInt32
  rw [Int.emod_eq_of_lt (Int.natCast_nonneg x) (by exact_mod_cast h)]
  exact Int.toNat_ofNat x

theorem toInt32_natCast (x : Nat) (h : x < 2147483648) : toInt32 (x : Int) = (x : Int) := by
  unfold toInt32
  rw [toUInt32_natCast x (by omega)]
  simp [h]

theorem jsShl_natCast (b s : Nat) (hs : s < 32) (h : b * 2 ^ s < 2147483648) :
    jsShl (b : Int) s = ((b * 2 ^ s : Nat) : Int) := by
  have hb : b < 4294967296 := by
    have h1 : 1 ≤ 2 ^ s := Nat.one_le_two_pow
    have := Nat.mul_le_mul_left b h1
    omega
  unfold jsShl
  rw [Nat.mod_eq_of_lt hs, toUInt32_natCast b hb, Nat.shiftLeft_eq]
  exact toInt32_natCast _ h

theorem jsShl_zero_left (s : Nat) : jsShl 0 s = 0 := by
  have h0 : toUInt32 0 = 0 := by unfold toUInt32; norm_num
  unfold jsShl
  rw [h0, Nat.zero_shiftLeft]
  simpa using toInt32_natCast 0 (by norm_num)

theorem jsOr_natCast (a b : Nat) (ha : a < 4294967296) (hb : b < 4294967296)
    (hab : (a ||| b) < 2147483648) :
    jsOr (a : Int) (b : Int) = ((a ||| b : Nat) : Int) := by
  unfold jsOr
  rw [toUInt32_natCast a ha, toUInt32_natCast b hb]
  exact toInt32_natCast _ hab

theorem lor_mul_pow {a : Nat} (b : Nat) {s : Nat} (h : a < 2 ^ s) :
    a ||| b * 2 ^ s = b * 2 ^ s + a := by
  rw [Nat.lor_comm, Nat.mul_comm b (2 ^ s), ← Nat.mul_add_lt_is_or h b]

theorem and_127_eq_mod (x : Nat) : x &&& 127 = x % 128 := by
  have h : x &&& 2 ^ 7 - 1 = x % 2 ^ 7 := Nat.and_pow_two_sub_one_eq_mod x 7
  norm_num at h
  exact h

theorem and_127_self {b : Nat} (h : b < 128) : b &&& 127 = b := by
  rw [and_127_eq_mod]; omega

theorem add_128_and_127 {b : Nat} (h : b < 128) : (b + 128) &&& 127 = b := by
  rw [and_127_eq_mod]; omega

theorem and_128_eq_zero {b : Nat} (h : b < 128) : b &&& 128 = 0 := by
  have h7 : b.testBit 7 = false := by
    rw [Nat.testBit_to_div_mod]
    simp only [decide_eq_false_iff_not]
    norm_num
    omega
  have key := Nat.and_two_pow b 7
  norm_num at key
  rw [key, h7]
  norm_num

theorem add_128_and_128 {b : Nat} (h : b < 128) : (b + 128) &&& 128 = 128 := by
  have h7 : (b + 128).testBit 7 = true := by
    rw [Nat.testBit_to_div_mod]
    simp only [decide_eq_true_eq]
    norm_num
    omega
  have key := Nat.and_two_pow (b + 128) 7
  norm_num at key
  rw [key, h7]
  norm_num

/-! Positional lemmas: reading at offset `pre.length` of `pre ++ middle ++ post`. -/

theorem jsGet_at (pre : List Nat) (a : Nat) (post : List Nat) :
    jsGet (pre ++ a :: post) (pre.length : Int) = some a := by
  unfold jsGet
  rw [if_pos (Int.natCast_nonneg _), Int.toNat_ofNat,
    List.get?_append_right (le_refl _)]
  simp

/-! Correctness of the LEB128 loop on every (possibly non-minimal) encoding
of a value below `2 ^ 31`. -/

theorem jsOr_natCast_zero (a : Nat) (ha : a < 2147483648) : jsOr (a : Int) 0 = (a : Int) := by
  have h := jsOr_natCast a 0 (by omega) (by norm_num) (by simpa using ha)
  simpa using h

theorem jsOr_acc_shl {acc b shift : Nat} (hacc : acc < 2 ^ shift)
    (hbound : acc + b * 2 ^ shift < 2147483648) (hb : b < 128) :
    jsOr (acc : Int) (jsShl (b : Int) shift) = ((acc + b * 2 ^ shift : Nat) : Int) := by
  rcases Nat.eq_zero_or_pos b with hb0 | hbpos
  · subst hb0
    rw [show ((0 : Nat) : Int) = 0 from rfl, jsShl_zero_left, jsOr_natCast_zero acc (by omega)]
    norm_num
  · have hpow : (2147483648 : Nat) = 2 ^ 31 := by norm_num
    have hle : 2 ^ shift ≤ b * 2 ^ shift := Nat.le_mul_of_pos_left _ hbpos
    have hs31 : shift < 31 := by
      by_contra hcon
      have h31 : (2 : Nat) ^ 31 ≤ 2 ^ shift :=
        Nat.pow_le_pow_right (by norm_num) (by omega)
      omega
    rw [jsShl_natCast b shift (by omega) (by omega)]
    rw [jsOr_natCast acc (b * 2 ^ shift) (by omega) (by omega)
      (by rw [lor_mul_pow b hacc]; omega)]
    rw [lor_mul_pow b hacc]
    congr 1
    omega

theorem readUnsignedLEB128Aux_spec :
    ∀ {n : Nat} {enc : List Nat}, IsLEB n enc →
    ∀ (pre post : List Nat) (shift acc fuel : Nat),
      enc.length ≤ fuel → acc < 2 ^ shift → acc + n * 2 ^ shift < 2147483648 →
      readUnsignedLEB128Aux (pre ++ (enc ++ post)) fuel (pre.length : Int) shift (acc : Int)
        = (((acc + n * 2 ^ shift : Nat) : Int), (pre.length : Int) + enc.length) := by
  intro n enc h
  induction h with
  | last b hb =>
    intro pre post shift acc fuel hfuel hacc hbound
    cases fuel with
    | zero => simp at hfuel
    | succ fuel =>
      have hget : jsGet (pre ++ ([b] ++ post)) (pre.length : Int) = some b := by
        simpa using jsGet_at pre b post
      simp only [readUnsignedLEB128Aux, hget, Option.getD_some]
      rw [and_127_self hb, jsOr_acc_shl hacc hbound hb,
        if_neg (by rw [and_128_eq_zero hb]; norm_num)]
      simp

  | cont b m rest hb hm ih =>
    intro pre post shift acc fuel hfuel hacc hbound
    cases fuel with
    | zero => simp at hfuel
    | succ fuel =>
      have hget : jsGet (pre ++ (((b + 128) :: rest) ++ post)) (pre.length : Int)
          = some (b + 128) := by
        simpa using jsGet_at pre (b + 128) (rest ++ post)
      simp only [readUnsignedLEB128Aux, hget, Option.getD_some]
      have hble : b * 2 ^ shift ≤ (b + 128 * m) * 2 ^ shift :=
        Nat.mul_le_mul_right _ (by omega)
      have hb2 : acc + b * 2 ^ shift < 2147483648 := by omega
      rw [add_128_and_127 hb, jsOr_acc_shl hacc hb2 hb,
        if_pos (by rw [add_128_and_128 hb]; norm_num)]
      have hlist : pre ++ (((b + 128) :: rest) ++ post)
          = (pre ++ [b + 128]) ++ (rest ++ post) := by simp
      have hoff : (pre.length : Int) + 1 = (((pre ++ [b + 128]).length : Nat) : Int) := by
        simp
      rw [hlist, hoff]
      have hacc' : acc + b * 2 ^ shift < 2 ^ (shift + 7) := by
        have hmul : b * 2 ^ shift ≤ 127 * 2 ^ shift :=
          Nat.mul_le_mul_right _ (by omega)
        have hpow : (2 : Nat) ^ (shift + 7) = 2 ^ shift * 128 := by
          rw [pow_add]; norm_num
        omega
      have hexp : (acc + b * 2 ^ shift) + m * 2 ^ (shift + 7)
          = acc + (b + 128 * m) * 2 ^ shift := by
        rw [pow_add]; ring
      rw [ih (pre ++ [b + 128]) post (shift + 7) (acc + b * 2 ^ shift) fuel
        (by simp at hfuel ⊢; omega) hacc' (by rw [hexp]; exact hbound)]
      rw [hexp]
      simp
      ring

/-- Top-level form of the LEB128 correctness: at offset `pre.length` of
`pre ++ enc ++ post`, where `enc` is any LEB128 encoding of a value
`n < 2 ^ 31`, the decoder returns `n` and consumes exactly `enc`. -/
theorem readUnsignedLEB128_at {n : Nat} {enc : List Nat} (h : IsLEB n enc)
    (hn : n < 2147483648) (pre post : List Nat) :
    readUnsignedLEB128 (pre ++ (enc ++ post)) (pre.length : Int)
      = ((n : Int), (pre.length : Int) + enc.length) := by
  have hfuel : enc.length ≤ (pre ++ (enc ++ post)).length + 1 := by
    simp; omega
  have hmain := readUnsignedLEB128Aux_spec h pre post 0 0
    ((pre ++ (enc ++ post)).length + 1) hfuel (by norm_num) (by simpa using hn)
  simp only [Nat.cast_zero, pow_zero, mul_one, Nat.zero_add] at hmain
  unfold readUnsignedLEB128
  rw [hmain]

theorem jsSlice_at (pre s post : List Nat) :
    jsSlice (pre ++ (s ++ post)) (pre.length : Int)
      ((pre.length : Int) + (s.length : Int)) = s := by
  have hsum : (pre.length : Int) + (s.length : Int)
      = ((pre.length + s.length : Nat) : Int) := by push_cast; ring
  rw [hsum]
  simp only [jsSlice, jsSliceIndex]
  rw [if_neg (Int.not_lt.mpr (Int.natCast_nonneg _)),
    if_neg (Int.not_lt.mpr (Int.natCast_nonneg _)),
    Int.toNat_ofNat, Int.toNat_ofNat]
  have h1 : min pre.length (pre ++ (s ++ post)).length = pre.length := by
    simp [List.length_append]
  have h2 : min (pre.length + s.length) (pre ++ (s ++ post)).length
      = pre.length + s.length := by
    simp [List.length_append]
  rw [h1, h2]
  have h3 : pre.length + s.length - pre.length = s.length := by omega
  rw [h3, List.drop_left, List.take_left]

theorem readName_at {s enc : List Nat} (h : NameEnc s enc) (pre post : List Nat) :
    readName (pre ++ (enc ++ post)) (pre.length : Int)
      = (s, ((pre.length + enc.length : Nat) : Int)) := by
  obtain ⟨lenEnc, hleb, hlt, henc⟩ := h
  subst henc
  have hb : pre ++ ((lenEnc ++ s) ++ post) = pre ++ (lenEnc ++ (s ++ post)) := by simp
  simp only [readName, hb, readUnsignedLEB128_at hleb hlt pre (s ++ post)]
  have hb2 : pre ++ (lenEnc ++ (s ++ post)) = (pre ++ lenEnc) ++ (s ++ post) := by simp
  have hoff : (pre.length : Int) + (lenEnc.length : Int)
      = (((pre ++ lenEnc).length : Nat) : Int) := by simp
  rw [hb2, hoff, jsSlice_at (pre ++ lenEnc) s post]
  simp
  ring

theorem parseValueType_at {b : Nat} {v : String} (h : IsVT b v) (pre post : List Nat) :
    parseValueType (pre ++ (b :: post)) (pre.length : Int)
      = .ok (v, (pre.length : Int) + 1) := by
  have hget : jsGet (pre ++ (b :: post)) (pre.length : Int) = some b := jsGet_at pre b post
  simp only [parseValueType, readByte, hget]
  rcases h with ⟨rfl, rfl⟩ | ⟨rfl, rfl⟩ | ⟨rfl, rfl⟩ | ⟨rfl, rfl⟩ |
    ⟨rfl, rfl⟩ | ⟨rfl, rfl⟩ | ⟨rfl, rfl⟩ <;> simp

theorem parseValueTypes_at :
    ∀ {bs : List Nat} {vs : List String}, List.Forall₂ IsVT bs vs →
    ∀ (pre post : List Nat),
    parseValueTypes (pre ++ (bs ++ post)) (pre.length : Int) vs.length
      = .ok (vs, ((pre.length + bs.length : Nat) : Int)) := by
  intro bs vs h
  induction h with
  | nil =>
    intro pre post
    simp [parseValueTypes]
  | @cons b v bs' vs' hbv htail ih =>
    intro pre post
    have hb : pre ++ ((b :: bs') ++ post) = pre ++ (b :: (bs' ++ post)) := by simp
    simp only [List.length_cons, parseValueTypes, hb,
      parseValueType_at hbv pre (bs' ++ post)]
    have hoff : (pre.length : Int) + 1 = (((pre ++ [b]).length : Nat) : Int) := by simp
    have hb2 : pre ++ (b :: (bs' ++ post)) = (pre ++ [b]) ++ (bs' ++ post) := by simp
    rw [hoff, hb2, ih (pre ++ [b]) post]
    simp
    ring

theorem parseLimits_at {mt : MemoryType} {enc : List Nat} (h : LimitsEnc mt enc)
    (pre post : List Nat) :
    parseLimits (pre ++ (enc ++ post)) (pre.length : Int)
      = (mt, ((pre.length + enc.length : Nat) : Int)) := by
  obtain ⟨flags, minEnc, minN, hmin, hminlt, hcase⟩ := h
  rcases hcase with ⟨hflag, henc, hmt⟩ | ⟨hflag, maxEnc, maxN, hmax, hmaxlt, henc, hmt⟩
  · subst henc hmt
    have hget : jsGet (pre ++ ((flags :: minEnc) ++ post)) (pre.length : Int)
        = some flags := by
      simpa using jsGet_at pre flags (minEnc ++ post)
    simp only [parseLimits, readByte, hget, Option.getD_some]
    have hb : pre ++ ((flags :: minEnc) ++ post) = (pre ++ [flags]) ++ (minEnc ++ post) := by
      simp
    have hoff : (pre.length : Int) + 1 = (((pre ++ [flags]).length : Nat) : Int) := by simp
    rw [hb, hoff, readUnsignedLEB128_at hmin hminlt (pre ++ [flags]) post,
      if_neg (by simp [hflag])]
    simp
    ring
  · subst henc hmt
    have hget : jsGet (pre ++ ((flags :: (minEnc ++ maxEnc)) ++ post)) (pre.length : Int)
        = some flags := by
      simpa using jsGet_at pre flags ((minEnc ++ maxEnc) ++ post)
    simp only [parseLimits, readByte, hget, Option.getD_some]
    have hb : pre ++ ((flags :: (minEnc ++ maxEnc)) ++ post)
        = (pre ++ [flags]) ++ (minEnc ++ (maxEnc ++ post)) := by simp
    have hoff : (pre.length : Int) + 1 = (((pre ++ [flags]).length : Nat) : Int) := by simp
    rw [hb, hoff]
    simp only [readUnsignedLEB128_at hmin hminlt (pre ++ [flags]) (maxEnc ++ post)]
    rw [if_pos hflag]
    have hb2 : (pre ++ [flags]) ++ (minEnc ++ (maxEnc ++ post))
        = ((pre ++ [flags]) ++ minEnc) ++ (maxEnc ++ post) := by simp
    have hoff2 : (((pre ++ [flags]).length : Nat) : Int) + (minEnc.length : Int)
        = ((((pre ++ [flags]) ++ minEnc).length : Nat) : Int) := by
      simp [List.length_append]
      omega
    rw [hb2, hoff2]
    simp only [readUnsignedLEB128_at hmax hmaxlt ((pre ++ [flags]) ++ minEnc) post]
    simp
    ring

theorem parseTableType_at {tt : TableType} {enc : List Nat} (h : TableEnc tt enc)
    (pre post : List Nat) :
    parseTableType (pre ++ (enc ++ post)) (pre.length : Int)
      = .ok (tt, ((pre.length + enc.length : Nat) : Int)) := by
  obtain ⟨eb, el, mt, rest, hel, hlim, henc, htt⟩ := h
  subst henc htt
  have hget : jsGet (pre ++ ((eb :: rest) ++ post)) (pre.length : Int) = some eb := by
    simpa using jsGet_at pre eb (rest ++ post)
  have hb : pre ++ ((eb :: rest) ++ post) = (pre ++ [eb]) ++ (rest ++ post) := by simp
  have hoff : (pre.length : Int) + 1 = (((pre ++ [eb]).length : Nat) : Int) := by simp
  have hlim2 := parseLimits_at hlim (pre ++ [eb]) post
  rcases hel with ⟨rfl, rfl⟩ | ⟨rfl, rfl⟩ <;>
    · simp only [parseTableType, readByte, hget]
      rw [hb, hoff, hlim2]
      cases hjt : jsTruthy mt.maximum <;> simp [hjt] <;> ring

theorem beq_some_one (mb : Nat) : (some mb == some 1) = decide (mb = 1) := by
  by_cases h : mb = 1
  · subst h; simp
  · simp [h]

theorem parseGlobalType_at {gt : GlobalType} {enc : List Nat} (h : GlobalEnc gt enc)
    (pre post : List Nat) :
    parseGlobalType (pre ++ (enc ++ post)) (pre.length : Int)
      = .ok (gt, ((pre.length + enc.length : Nat) : Int)) := by
  obtain ⟨vb, v, mb, hvt, henc, hgt⟩ := h
  subst henc hgt
  have hb : pre ++ ([vb, mb] ++ post) = pre ++ (vb :: (mb :: post)) := by simp
  simp only [parseGlobalType, hb, parseValueType_at hvt pre (mb :: post)]
  have hget : jsGet (pre ++ (vb :: (mb :: post))) ((pre.length : Int) + 1) = some mb := by
    have hb2 : pre ++ (vb :: (mb :: post)) = (pre ++ [vb]) ++ (mb :: post) := by simp
    have hoff : (pre.length : Int) + 1 = (((pre ++ [vb]).length : Nat) : Int) := by simp
    rw [hb2, hoff]
    exact jsGet_at (pre ++ [vb]) mb post
  simp only [readByte, hget, beq_some_one]
  simp
  ring

theorem parseFunctionType_at {ft : FunctionType} {enc : List Nat} (h : FTEnc ft enc)
    (pre post : List Nat) :
    parseFunctionType (pre ++ (enc ++ post)) (pre.length : Int)
      = .ok (ft, ((pre.length + enc.length : Nat) : Int)) := by
  obtain ⟨pcEnc, pbs, rcEnc, rbs, hpc, hplt, hpvt, hrc, hrlt, hrvt, henc⟩ := h
  subst henc
  have hget : jsGet (pre ++ ((0x60 :: (pcEnc ++ (pbs ++ (rcEnc ++ rbs)))) ++ post))
      (pre.length : Int) = some 0x60 := by
    simpa using jsGet_at pre 0x60 ((pcEnc ++ (pbs ++ (rcEnc ++ rbs))) ++ post)
  simp only [parseFunctionType, readByte, hget, eq_self_iff_true, if_true]
  have hb1 : pre ++ ((0x60 :: (pcEnc ++ (pbs ++ (rcEnc ++ rbs)))) ++ post)
      = (pre ++ [0x60]) ++ (pcEnc ++ (pbs ++ (rcEnc ++ (rbs ++ post)))) := by simp
  have hoff1 : (pre.length : Int) + 1 = (((pre ++ [0x60]).length : Nat) : Int) := by simp
  rw [hb1, hoff1]
  simp only [readUnsignedLEB128_at hpc hplt (pre ++ [0x60]) (pbs ++ (rcEnc ++ (rbs ++ post))),
    Int.toNat_ofNat]
  have hb2 : (pre ++ [0x60]) ++ (pcEnc ++ (pbs ++ (rcEnc ++ (rbs ++ post))))
      = ((pre ++ [0x60]) ++ pcEnc) ++ (pbs ++ (rcEnc ++ (rbs ++ post))) := by simp
  have hoff2 : (((pre ++ [0x60]).length : Nat) : Int) + (pcEnc.length : Int)
      = ((((pre ++ [0x60]) ++ pcEnc).length : Nat) : Int) := by
    simp [List.length_append]
    omega
  rw [hb2, hoff2]
  simp only [parseValueTypes_at hpvt ((pre ++ [0x60]) ++ pcEnc) (rcEnc ++ (rbs ++ post))]
  have hb3 : ((pre ++ [0x60]) ++ pcEnc) ++ (pbs ++ (rcEnc ++ (rbs ++ post)))
      = (((pre ++ [0x60]) ++ pcEnc) ++ pbs) ++ (rcEnc ++ (rbs ++ post)) := by simp
  have hoff3 : ((((pre ++ [0x60]) ++ pcEnc).length + pbs.length : Nat) : Int)
      = (((((pre ++ [0x60]) ++ pcEnc) ++ pbs).length : Nat) : Int) := by
    simp [List.length_append]
    omega
  rw [hb3, hoff3]
  simp only [readUnsignedLEB128_at hrc hrlt (((pre ++ [0x60]) ++ pcEnc) ++ pbs) (rbs ++ post),
    Int.toNat_ofNat]
  have hb4 : (((pre ++ [0x60]) ++ pcEnc) ++ pbs) ++ (rcEnc ++ (rbs ++ post))
      = ((((pre ++ [0x60]) ++ pcEnc) ++ pbs) ++ rcEnc) ++ (rbs ++ post) := by simp
  have hoff4 : (((((pre ++ [0x60]) ++ pcEnc) ++ pbs).length : Nat) : Int) + (rcEnc.length : Int)
      = ((((((pre ++ [0x60]) ++ pcEnc) ++ pbs) ++ rcEnc).length : Nat) : Int) := by
    simp [List.length_append]
    omega
  rw [hb4, hoff4]
  simp only [parseValueTypes_at hrvt ((((pre ++ [0x60]) ++ pcEnc) ++ pbs) ++ rcEnc) post]
  simp
  ring

theorem parseFunctionTypes_at :
    ∀ {fts : List FunctionType} {bs : List Nat}, FTsEnc fts bs →
    ∀ (pre post : List Nat),
    parseFunctionTypes (pre ++ (bs ++ post)) (pre.length : Int) fts.length
      = .ok (fts, ((pre.length + bs.length : Nat) : Int)) := by
  intro fts bs h
  induction h with
  | nil =>
    intro pre post
    simp [parseFunctionTypes]
  | @cons ft fts' enc rest hft htail ih =>
    intro pre post
    have hb : pre ++ ((enc ++ rest) ++ post) = pre ++ (enc ++ (rest ++ post)) := by simp
    simp only [List.length_cons, parseFunctionTypes, hb,
      parseFunctionType_at hft pre (rest ++ post)]
    have hoff : ((pre.length + enc.length : Nat) : Int)
        = (((pre ++ enc).length : Nat) : Int) := by simp
    have hb2 : pre ++ (enc ++ (rest ++ post)) = (pre ++ enc) ++ (rest ++ post) := by simp
    rw [hoff, hb2, ih (pre ++ enc) post]
    simp
    ring

theorem jsIndex_natCast (types : List FunctionType) (i : Nat) :
    jsIndex types (i : Int) = types.get? i := by
  unfold jsIndex
  rw [if_pos (Int.natCast_nonneg _), Int.toNat_ofNat]

theorem parseImportEntry_at {types : List FunctionType} {e : ImportEntry} {enc : List Nat}
    (h : EntryEnc types e enc) (pre post : List Nat) :
    parseImportEntry (pre ++ (enc ++ post)) (pre.length : Int) types
      = .ok (e, ((pre.length + enc.length : Nat) : Int)) := by
  cases h with
  | @function m n mEnc nEnc i idxEnc hm hn hi hilt =>
    have hb0 : pre ++ ((mEnc ++ (nEnc ++ (0x00 :: idxEnc))) ++ post)
        = pre ++ (mEnc ++ ((nEnc ++ (0x00 :: idxEnc)) ++ post)) := by simp
    simp only [parseImportEntry, hb0,
      readName_at hm pre ((nEnc ++ (0x00 :: idxEnc)) ++ post)]
    have hoff1 : ((pre.length + mEnc.length : Nat) : Int)
        = (((pre ++ mEnc).length : Nat) : Int) := by simp
    have hb1 : pre ++ (mEnc ++ ((nEnc ++ (0x00 :: idxEnc)) ++ post))
        = (pre ++ mEnc) ++ (nEnc ++ ((0x00 :: idxEnc) ++ post)) := by simp
    rw [hoff1, hb1]
    simp only [readName_at hn (pre ++ mEnc) ((0x00 :: idxEnc) ++ post)]
    have hoff2 : (((pre ++ mEnc).length + nEnc.length : Nat) : Int)
        = ((((pre ++ mEnc) ++ nEnc).length : Nat) : Int) := by
      simp [List.length_append]
      omega
    have hb2 : (pre ++ mEnc) ++ (nEnc ++ ((0x00 :: idxEnc) ++ post))
        = ((pre ++ mEnc) ++ nEnc) ++ (0x00 :: (idxEnc ++ post)) := by simp
    rw [hoff2, hb2]
    simp only [readByte, jsGet_at ((pre ++ mEnc) ++ nEnc) 0x00 (idxEnc ++ post),
      eq_self_iff_true, if_true]
    have hoff3 : ((((pre ++ mEnc) ++ nEnc).length : Nat) : Int) + 1
        = (((((pre ++ mEnc) ++ nEnc) ++ [0x00]).length : Nat) : Int) := by
      simp [List.length_append]
      omega
    have hb3 : ((pre ++ mEnc) ++ nEnc) ++ (0x00 :: (idxEnc ++ post))
        = (((pre ++ mEnc) ++ nEnc) ++ [0x00]) ++ (idxEnc ++ post) := by simp
    rw [hoff3, hb3]
    simp only [readUnsignedLEB128_at hi hilt (((pre ++ mEnc) ++ nEnc) ++ [0x00]) post,
      jsIndex_natCast]
    simp [List.length_append]
    ring
  | @table m n mEnc nEnc tt tEnc hm hn ht =>
    have hb0 : pre ++ ((mEnc ++ (nEnc ++ (0x01 :: tEnc))) ++ post)
        = pre ++ (mEnc ++ ((nEnc ++ (0x01 :: tEnc)) ++ post)) := by simp
    simp only [parseImportEntry, hb0,
      readName_at hm pre ((nEnc ++ (0x01 :: tEnc)) ++ post)]
    have hoff1 : ((pre.length + mEnc.length : Nat) : Int)
        = (((pre ++ mEnc).length : Nat) : Int) := by simp
    have hb1 : pre ++ (mEnc ++ ((nEnc ++ (0x01 :: tEnc)) ++ post))
        = (pre ++ mEnc) ++ (nEnc ++ ((0x01 :: tEnc) ++ post)) := by simp
    rw [hoff1, hb1]
    simp only [readName_at hn (pre ++ mEnc) ((0x01 :: tEnc) ++ post)]
    have hoff2 : (((pre ++ mEnc).length + nEnc.length : Nat) : Int)
        = ((((pre ++ mEnc) ++ nEnc).length : Nat) : Int) := by
      simp [List.length_append]
      omega
    have hb2 : (pre ++ mEnc) ++ (nEnc ++ ((0x01 :: tEnc) ++ post))
        = ((pre ++ mEnc) ++ nEnc) ++ (0x01 :: (tEnc ++ post)) := by simp
    rw [hoff2, hb2]
    simp only [readByte, jsGet_at ((pre ++ mEnc) ++ nEnc) 0x01 (tEnc ++ post)]
    rw [if_neg (by simp)]
    simp only [eq_self_iff_true, if_true]
    have hoff3 : ((((pre ++ mEnc) ++ nEnc).length : Nat) : Int) + 1
        = (((((pre ++ mEnc) ++ nEnc) ++ [0x01]).length : Nat) : Int) := by
      simp [List.length_append]
      omega
    have hb3 : ((pre ++ mEnc) ++ nEnc) ++ (0x01 :: (tEnc ++ post))
        = (((pre ++ mEnc) ++ nEnc) ++ [0x01]) ++ (tEnc ++ post) := by simp
    rw [hoff3, hb3]
    simp only [parseTableType_at ht (((pre ++ mEnc) ++ nEnc) ++ [0x01]) post]
    simp [List.length_append]
    ring
  | @memory m n mEnc nEnc mt lEnc hm hn hl =>
    have hb0 : pre ++ ((mEnc ++ (nEnc ++ (0x02 :: lEnc))) ++ post)
        = pre ++ (mEnc ++ ((nEnc ++ (0x02 :: lEnc)) ++ post)) := by simp
    simp only [parseImportEntry, hb0,
      readName_at hm pre ((nEnc ++ (0x02 :: lEnc)) ++ post)]
    have hoff1 : ((pre.length + mEnc.length : Nat) : Int)
        = (((pre ++ mEnc).length : Nat) : Int) := by simp
    have hb1 : pre ++ (mEnc ++ ((nEnc ++ (0x02 :: lEnc)) ++ post))
        = (pre ++ mEnc) ++ (nEnc ++ ((0x02 :: lEnc) ++ post)) := by simp
    rw [hoff1, hb1]
    simp only [readName_at hn (pre ++ mEnc) ((0x02 :: lEnc) ++ post)]
    have hoff2 : (((pre ++ mEnc).length + nEnc.length : Nat) : Int)
        = ((((pre ++ mEnc) ++ nEnc).length : Nat) : Int) := by
      simp [List.length_append]
      omega
    have hb2 : (pre ++ mEnc) ++ (nEnc ++ ((0x02 :: lEnc) ++ post))
        = ((pre ++ mEnc) ++ nEnc) ++ (0x02 :: (lEnc ++ post)) := by simp
    rw [hoff2, hb2]
    simp only [readByte, jsGet_at ((pre ++ mEnc) ++ nEnc) 0x02 (lEnc ++ post)]
    rw [if_neg (by simp), if_neg (by simp)]
    simp only [eq_self_iff_true, if_true]
    have hoff3 : ((((pre ++ mEnc) ++ nEnc).length : Nat) : Int) + 1
        = (((((pre ++ mEnc) ++ nEnc) ++ [0x02]).length : Nat) : Int) := by
      simp [List.length_append]
      omega
    have hb3 : ((pre ++ mEnc) ++ nEnc) ++ (0x02 :: (lEnc ++ post))
        = (((pre ++ mEnc) ++ nEnc) ++ [0x02]) ++ (lEnc ++ post) := by simp
    rw [hoff3, hb3]
    simp only [parseLimits_at hl (((pre ++ mEnc) ++ nEnc) ++ [0x02]) post]
    simp [List.length_append]
    ring
  | @global m n mEnc nEnc gt gEnc hm hn hg =>
    have hb0 : pre ++ ((mEnc ++ (nEnc ++ (0x03 :: gEnc))) ++ post)
        = pre ++ (mEnc ++ ((nEnc ++ (0x03 :: gEnc)) ++ post)) := by simp
    simp only [parseImportEntry, hb0,
      readName_at hm pre ((nEnc ++ (0x03 :: gEnc)) ++ post)]
    have hoff1 : ((pre.length + mEnc.length : Nat) : Int)
        = (((pre ++ mEnc).length : Nat) : Int) := by simp
    have hb1 : pre ++ (mEnc ++ ((nEnc ++ (0x03 :: gEnc)) ++ post))
        = (pre ++ mEnc) ++ (nEnc ++ ((0x03 :: gEnc) ++ post)) := by simp
    rw [hoff1, hb1]
    simp only [readName_at hn (pre ++ mEnc) ((0x03 :: gEnc) ++ post)]
    have hoff2 : (((pre ++ mEnc).length + nEnc.length : Nat) : Int)
        = ((((pre ++ mEnc) ++ nEnc).length : Nat) : Int) := by
      simp [List.length_append]
      omega
    have hb2 : (pre ++ mEnc) ++ (nEnc ++ ((0x03 :: gEnc) ++ post))
        = ((pre ++ mEnc) ++ nEnc) ++ (0x03 :: (gEnc ++ post)) := by simp
    rw [hoff2, hb2]
    simp only [readByte, jsGet_at ((pre ++ mEnc) ++ nEnc) 0x03 (gEnc ++ post)]
    rw [if_neg (by simp), if_neg (by simp), if_neg (by simp)]
    simp only [eq_self_iff_true, if_true]
    have hoff3 : ((((pre ++ mEnc) ++ nEnc).length : Nat) : Int) + 1
        = (((((pre ++ mEnc) ++ nEnc) ++ [0x03]).length : Nat) : Int) := by
      simp [List.length_append]
      omega
    have hb3 : ((pre ++ mEnc) ++ nEnc) ++ (0x03 :: (gEnc ++ post))
        = (((pre ++ mEnc) ++ nEnc) ++ [0x03]) ++ (gEnc ++ post) := by simp
    rw [hoff3, hb3]
    simp only [parseGlobalType_at hg (((pre ++ mEnc) ++ nEnc) ++ [0x03]) post]
    simp [List.length_append]
    ring

theorem parseImportEntries_at {types : List FunctionType} :
    ∀ {es : List ImportEntry} {bs : List Nat}, EntriesEnc types es bs →
    ∀ (pre post : List Nat),
    parseImportEntries (pre ++ (bs ++ post)) (pre.length : Int) types es.length
      = .ok (es, ((pre.length + bs.length : Nat) : Int)) := by
  intro es bs h
  induction h with
  | nil =>
    intro pre post
    simp [parseImportEntries]
  | @cons e es' enc rest he htail ih =>
    intro pre post
    have hb : pre ++ ((enc ++ rest) ++ post) = pre ++ (enc ++ (rest ++ post)) := by simp
    simp only [List.length_cons, parseImportEntries, hb,
      parseImportEntry_at he pre (rest ++ post)]
    have hoff : ((pre.length + enc.length : Nat) : Int)
        = (((pre ++ enc).length : Nat) : Int) := by simp
    have hb2 : pre ++ (enc ++ (rest ++ post)) = (pre ++ enc) ++ (rest ++ post) := by simp
    rw [hoff, hb2]
    simp only [ih (pre ++ enc) post]
    simp [List.length_append]
    ring

/-! Header checks and the section loop on well-formed modules. -/

theorem checkBytes_of_at :
    ∀ (seg : List Nat) (pre post : List Nat) (i : Nat) (base : Int),
      base + (i : Int) = (pre.length : Int) →
      checkBytes (pre ++ (seg ++ post)) base seg i = true := by
  intro seg
  induction seg with
  | nil =>
    intro pre post i base hbase
    simp [checkBytes]
  | cons e rest ih =>
    intro pre post i base hbase
    simp only [checkBytes]
    have hget : jsGet (pre ++ ((e :: rest) ++ post)) (base + (i : Int)) = some e := by
      rw [hbase]
      simpa using jsGet_at pre e (rest ++ post)
    rw [hget]
    simp only [beq_self_eq_true, Bool.true_and]
    have hb : pre ++ ((e :: rest) ++ post) = (pre ++ [e]) ++ (rest ++ post) := by simp
    rw [hb]
    apply ih (pre ++ [e]) post (i + 1) base
    push_cast
    simp [List.length_append]
    omega

theorem assertBytes_at (pre seg post : List Nat) :
    assertBytes (pre ++ (seg ++ post)) (pre.length : Int) seg
      = .ok ((pre.length : Int) + (seg.length : Int)) := by
  unfold assertBytes
  rw [if_pos (checkBytes_of_at seg pre post 0 (pre.length : Int) (by simp))]

theorem parseMagicNumber_header (rest : List Nat) :
    parseMagicNumber (wasmHeader ++ rest) 0 = .ok 4 := by
  have hb : wasmHeader ++ rest = ([] : List Nat)
      ++ ([0x00, 0x61, 0x73, 0x6D] ++ ([0x01, 0x00, 0x00, 0x00] ++ rest)) := by
    simp [wasmHeader]
  rw [parseMagicNumber, hb]
  have h := assertBytes_at ([] : List Nat) [0x00, 0x61, 0x73, 0x6D]
    ([0x01, 0x00, 0x00, 0x00] ++ rest)
  simpa using h

theorem parseVersion_header (rest : List Nat) :
    parseVersion (wasmHeader ++ rest) 4 = .ok 8 := by
  have hb : wasmHeader ++ rest
      = [0x00, 0x61, 0x73, 0x6D] ++ ([0x01, 0x00, 0x00, 0x00] ++ rest) := by
    simp [wasmHeader]
  rw [parseVersion, hb]
  have h := assertBytes_at [0x00, 0x61, 0x73, 0x6D] [0x01, 0x00, 0x00, 0x00] rest
  simpa using h

theorem SecsEnc_k_le {k : Nat} {ts : List FunctionType} {bs : List Nat}
    (h : SecsEnc k ts bs) : k ≤ bs.length := by
  induction h with
  | nil => simp
  | typeSec _ _ _ _ _ _ ih =>
    simp [List.length_append]
    omega
  | otherSec _ _ _ _ _ ih =>
    simp [List.length_append]
    omega

theorem parseSections_walk :
    ∀ {k : Nat} {tys : List FunctionType} {secs : List Nat}, SecsEnc k tys secs →
    ∀ (pre tail sizeEnc cntEnc ebytes : List Nat) (sz : Nat)
      (entries : List ImportEntry) (types₀ : List FunctionType) (fuel : Nat),
      k + 1 ≤ fuel →
      IsLEB sz sizeEnc → sz < 2147483648 →
      IsLEB entries.length cntEnc → entries.length < 2147483648 →
      EntriesEnc (types₀ ++ tys) entries ebytes →
      parseSections (pre ++ (secs ++ (0x02 :: (sizeEnc ++ (cntEnc ++ (ebytes ++ tail))))))
        fuel (pre.length : Int) types₀ = .ok entries := by
  intro k tys secs h
  induction h with
  | nil =>
    intro pre tail sizeEnc cntEnc ebytes sz entries types₀ fuel hfuel hsz hszlt hcnt hcntlt hents
    cases fuel with
    | zero => omega
    | succ fuel =>
      have hb0 : pre ++ (([] : List Nat) ++ (0x02 :: (sizeEnc ++ (cntEnc ++ (ebytes ++ tail)))))
          = pre ++ (0x02 :: (sizeEnc ++ (cntEnc ++ (ebytes ++ tail)))) := by simp
      rw [hb0]
      have hmore : hasMoreBytes (pre ++ (0x02 :: (sizeEnc ++ (cntEnc ++ (ebytes ++ tail)))))
          (pre.length : Int) = true := by
        simp only [hasMoreBytes, decide_eq_true_eq, List.length_append, List.length_cons]
        push_cast
        omega
      simp only [parseSections, hmore, eq_self_iff_true, if_true, readByte,
        jsGet_at pre 0x02 (sizeEnc ++ (cntEnc ++ (ebytes ++ tail)))]
      rw [if_neg (by simp)]
      have hoff1 : (pre.length : Int) + 1 = (((pre ++ [0x02]).length : Nat) : Int) := by simp
      have hb1 : pre ++ (0x02 :: (sizeEnc ++ (cntEnc ++ (ebytes ++ tail))))
          = (pre ++ [0x02]) ++ (sizeEnc ++ (cntEnc ++ (ebytes ++ tail))) := by simp
      rw [hoff1, hb1]
      simp only [readUnsignedLEB128_at hsz hszlt (pre ++ [0x02]) (cntEnc ++ (ebytes ++ tail))]
      have hoff2 : (((pre ++ [0x02]).length : Nat) : Int) + (sizeEnc.length : Int)
          = ((((pre ++ [0x02]) ++ sizeEnc).length : Nat) : Int) := by
        simp [List.length_append]
        omega
      have hb2 : (pre ++ [0x02]) ++ (sizeEnc ++ (cntEnc ++ (ebytes ++ tail)))
          = ((pre ++ [0x02]) ++ sizeEnc) ++ (cntEnc ++ (ebytes ++ tail)) := by simp
      rw [hoff2, hb2]
      simp only [readUnsignedLEB128_at hcnt hcntlt ((pre ++ [0x02]) ++ sizeEnc)
        (ebytes ++ tail), Int.toNat_ofNat]
      have hoff3 : ((((pre ++ [0x02]) ++ sizeEnc).length : Nat) : Int) + (cntEnc.length : Int)
          = (((((pre ++ [0x02]) ++ sizeEnc) ++ cntEnc).length : Nat) : Int) := by
        simp [List.length_append]
        omega
      have hb3 : ((pre ++ [0x02]) ++ sizeEnc) ++ (cntEnc ++ (ebytes ++ tail))
          = (((pre ++ [0x02]) ++ sizeEnc) ++ cntEnc) ++ (ebytes ++ tail) := by simp
      rw [hoff3, hb3]
      have hents' : EntriesEnc types₀ entries ebytes := by simpa using hents
      simp only [parseImportEntries_at hents' (((pre ++ [0x02]) ++ sizeEnc) ++ cntEnc) tail]
  | @typeSec k sz' szEnc' fts cntEnc' ftsBytes ts rest hsz' hszlt' hcnt' hcntlt' hfts hrest ih =>
    intro pre tail sizeEnc cntEnc ebytes sz entries types₀ fuel hfuel hsz hszlt hcnt hcntlt hents
    cases fuel with
    | zero => omega
    | succ fuel =>
      have hb0 : pre ++ ((0x01 :: (szEnc' ++ (cntEnc' ++ (ftsBytes ++ rest))))
            ++ (0x02 :: (sizeEnc ++ (cntEnc ++ (ebytes ++ tail)))))
          = pre ++ (0x01 :: (szEnc' ++ (cntEnc' ++ (ftsBytes
            ++ (rest ++ (0x02 :: (sizeEnc ++ (cntEnc ++ (ebytes ++ tail))))))))) := by simp
      rw [hb0]
      have hmore : hasMoreBytes (pre ++ (0x01 :: (szEnc' ++ (cntEnc' ++ (ftsBytes
            ++ (rest ++ (0x02 :: (sizeEnc ++ (cntEnc ++ (ebytes ++ tail))))))))))
          (pre.length : Int) = true := by
        simp only [hasMoreBytes, decide_eq_true_eq, List.length_append, List.length_cons]
        push_cast
        omega
      simp only [parseSections, hmore, eq_self_iff_true, if_true, readByte,
        jsGet_at pre 0x01 (szEnc' ++ (cntEnc' ++ (ftsBytes
          ++ (rest ++ (0x02 :: (sizeEnc ++ (cntEnc ++ (ebytes ++ tail))))))))]
      have hoff1 : (pre.length : Int) + 1 = (((pre ++ [0x01]).length : Nat) : Int) := by simp
      have hb1 : pre ++ (0x01 :: (szEnc' ++ (cntEnc' ++ (ftsBytes
            ++ (rest ++ (0x02 :: (sizeEnc ++ (cntEnc ++ (ebytes ++ tail)))))))))
          = (pre ++ [0x01]) ++ (szEnc' ++ (cntEnc' ++ (ftsBytes
            ++ (rest ++ (0x02 :: (sizeEnc ++ (cntEnc ++ (ebytes ++ tail)))))))) := by simp
      rw [hoff1, hb1]
      simp only [readUnsignedLEB128_at hsz' hszlt' (pre ++ [0x01]) (cntEnc' ++ (ftsBytes
        ++ (rest ++ (0x02 :: (sizeEnc ++ (cntEnc ++ (ebytes ++ tail)))))))]
      have hoff2 : (((pre ++ [0x01]).length : Nat) : Int) + (szEnc'.length : Int)
          = ((((pre ++ [0x01]) ++ szEnc').length : Nat) : Int) := by
        simp [List.length_append]
        omega
      have hb2 : (pre ++ [0x01]) ++ (szEnc' ++ (cntEnc' ++ (ftsBytes
            ++ (rest ++ (0x02 :: (sizeEnc ++ (cntEnc ++ (ebytes ++ tail))))))))
          = ((pre ++ [0x01]) ++ szEnc') ++ (cntEnc' ++ (ftsBytes
            ++ (rest ++ (0x02 :: (sizeEnc ++ (cntEnc ++ (ebytes ++ tail))))))) := by simp
      rw [hoff2, hb2]
      simp only [readUnsignedLEB128_at hcnt' hcntlt' ((pre ++ [0x01]) ++ szEnc') (ftsBytes
        ++ (rest ++ (0x02 :: (sizeEnc ++ (cntEnc ++ (ebytes ++ tail)))))), Int.toNat_ofNat]
      have hoff3 : ((((pre ++ [0x01]) ++ szEnc').length : Nat) : Int) + (cntEnc'.length : Int)
          = (((((pre ++ [0x01]) ++ szEnc') ++ cntEnc').length : Nat) : Int) := by
        simp [List.length_append]
        omega
      have hb3 : ((pre ++ [0x01]) ++ szEnc') ++ (cntEnc' ++ (ftsBytes
            ++ (rest ++ (0x02 :: (sizeEnc ++ (cntEnc ++ (ebytes ++ tail)))))))
          = (((pre ++ [0x01]) ++ szEnc') ++ cntEnc') ++ (ftsBytes
            ++ (rest ++ (0x02 :: (sizeEnc ++ (cntEnc ++ (ebytes ++ tail)))))) := by simp
      rw [hoff3, hb3]
      simp only [parseFunctionTypes_at hfts (((pre ++ [0x01]) ++ szEnc') ++ cntEnc')
        (rest ++ (0x02 :: (sizeEnc ++ (cntEnc ++ (ebytes ++ tail)))))]
      have hoff4 : (((((pre ++ [0x01]) ++ szEnc') ++ cntEnc').length
            + ftsBytes.length : Nat) : Int)
          = ((((((pre ++ [0x01]) ++ szEnc') ++ cntEnc') ++ ftsBytes).length : Nat) : Int) := by
        simp [List.length_append]
        omega
      have hb4 : (((pre ++ [0x01]) ++ szEnc') ++ cntEnc') ++ (ftsBytes
            ++ (rest ++ (0x02 :: (sizeEnc ++ (cntEnc ++ (ebytes ++ tail))))))
          = ((((pre ++ [0x01]) ++ szEnc') ++ cntEnc') ++ ftsBytes)
            ++ (rest ++ (0x02 :: (sizeEnc ++ (cntEnc ++ (ebytes ++ tail))))) := by simp
      rw [hoff4, hb4]
      have hents' : EntriesEnc ((types₀ ++ fts) ++ ts) entries ebytes := by
        rwa [List.append_assoc]
      exact ih ((((pre ++ [0x01]) ++ szEnc') ++ cntEnc') ++ ftsBytes) tail sizeEnc cntEnc
        ebytes sz entries (types₀ ++ fts) fuel (by omega) hsz hszlt hcnt hcntlt hents'
  | @otherSec k sid body szEnc' ts rest h1 h2 hsz' hszlt' hrest ih =>
    intro pre tail sizeEnc cntEnc ebytes sz entries types₀ fuel hfuel hsz hszlt hcnt hcntlt hents
    cases fuel with
    | zero => omega
    | succ fuel =>
      have hb0 : pre ++ ((sid :: (szEnc' ++ (body ++ rest)))
            ++ (0x02 :: (sizeEnc ++ (cntEnc ++ (ebytes ++ tail)))))
          = pre ++ (sid :: (szEnc' ++ (body
            ++ (rest ++ (0x02 :: (sizeEnc ++ (cntEnc ++ (ebytes ++ tail)))))))) := by simp
      rw [hb0]
      have hmore : hasMoreBytes (pre ++ (sid :: (szEnc' ++ (body
            ++ (rest ++ (0x02 :: (sizeEnc ++ (cntEnc ++ (ebytes ++ tail)))))))))
          (pre.length : Int) = true := by
        simp only [hasMoreBytes, decide_eq_true_eq, List.length_append, List.length_cons]
        push_cast
        omega
      simp only [parseSections, hmore, eq_self_iff_true, if_true, readByte,
        jsGet_at pre sid (szEnc' ++ (body
          ++ (rest ++ (0x02 :: (sizeEnc ++ (cntEnc ++ (ebytes ++ tail)))))))]
      rw [if_neg (by simp [h1]), if_neg (by simp [h2])]
      have hoff1 : (pre.length : Int) + 1 = (((pre ++ [sid]).length : Nat) : Int) := by simp
      have hb1 : pre ++ (sid :: (szEnc' ++ (body
            ++ (rest ++ (0x02 :: (sizeEnc ++ (cntEnc ++ (ebytes ++ tail))))))))
          = (pre ++ [sid]) ++ (szEnc' ++ (body
            ++ (rest ++ (0x02 :: (sizeEnc ++ (cntEnc ++ (ebytes ++ tail))))))) := by simp
      rw [hoff1, hb1]
      simp only [readUnsignedLEB128_at hsz' hszlt' (pre ++ [sid]) (body
        ++ (rest ++ (0x02 :: (sizeEnc ++ (cntEnc ++ (ebytes ++ tail)))))), skipBytes]
      have hoff2 : ((((pre ++ [sid]).length : Nat) : Int) + (szEnc'.length : Int))
            + ((body.length : Nat) : Int)
          = ((((((pre ++ [sid]) ++ szEnc') ++ body).length : Nat)) : Int) := by
        simp [List.length_append]
        omega
      have hb2 : (pre ++ [sid]) ++ (szEnc' ++ (body
            ++ (rest ++ (0x02 :: (sizeEnc ++ (cntEnc ++ (ebytes ++ tail)))))))
          = (((pre ++ [sid]) ++ szEnc') ++ body)
            ++ (rest ++ (0x02 :: (sizeEnc ++ (cntEnc ++ (ebytes ++ tail))))) := by simp
      rw [hoff2, hb2]
      exact ih (((pre ++ [sid]) ++ szEnc') ++ body) tail sizeEnc cntEnc ebytes sz entries
        types₀ fuel (by omega) hsz hszlt hcnt hcntlt hents

/-- Decoding a well-formed module prefix: a valid header, any sequence of
well-formed type and other sections, then an import section with
well-formed entries, followed by arbitrary bytes, decodes to exactly the
encoded entries — independently of the trailing bytes. -/
theorem parseImportsBytes_structured
    {k : Nat} {tys : List FunctionType} {secs : List Nat} (hsecs : SecsEnc k tys secs)
    {sz : Nat} {sizeEnc : List Nat} (hsz : IsLEB sz sizeEnc) (hszlt : sz < 2147483648)
    {entries : List ImportEntry} {cntEnc : List Nat}
    (hcnt : IsLEB entries.length cntEnc) (hcntlt : entries.length < 2147483648)
    {ebytes : List Nat} (hents : EntriesEnc tys entries ebytes) (tail : List Nat) :
    parseImportsBytes (wasmHeader
      ++ (secs ++ (0x02 :: (sizeEnc ++ (cntEnc ++ (ebytes ++ tail)))))) = .ok entries := by
  have hmagic := parseMagicNumber_header
    (secs ++ (0x02 :: (sizeEnc ++ (cntEnc ++ (ebytes ++ tail)))))
  have hversion := parseVersion_header
    (secs ++ (0x02 :: (sizeEnc ++ (cntEnc ++ (ebytes ++ tail)))))
  simp only [parseImportsBytes, hmagic, hversion]
  have h8 : (8 : Int) = ((wasmHeader.length : Nat) : Int) := by simp [wasmHeader]
  rw [h8]
  refine parseSections_walk hsecs wasmHeader tail sizeEnc cntEnc ebytes sz entries []
    _ ?_ hsz hszlt hcnt hcntlt (by simpa using hents)
  have hk := SecsEnc_k_le hsecs
  simp [List.length_append, wasmHeader]
  omega

/-! Shape invariant: every decoded entry pairs its kind string with the
matching payload constructor. -/

theorem parseImportEntry_good {bytes : List Nat} {off : Int} {types : List FunctionType}
    {e : ImportEntry} {o : Int} (h : parseImportEntry bytes off types = .ok (e, o)) :
    GoodEntry e := by
  simp only [parseImportEntry] at h
  split_ifs at h with h0 h1 h2 h3
  · simp only [Except.ok.injEq, Prod.mk.injEq] at h
    obtain ⟨he, -⟩ := h
    subst he
    exact Or.inl ⟨rfl, _, rfl⟩
  · split at h
    · exact absurd h (by simp)
    · simp only [Except.ok.injEq, Prod.mk.injEq] at h
      obtain ⟨he, -⟩ := h
      subst he
      exact Or.inr (Or.inl ⟨rfl, _, rfl⟩)
  · simp only [Except.ok.injEq, Prod.mk.injEq] at h
    obtain ⟨he, -⟩ := h
    subst he
    exact Or.inr (Or.inr (Or.inl ⟨rfl, _, rfl⟩))
  · split at h
    · exact absurd h (by simp)
    · simp only [Except.ok.injEq, Prod.mk.injEq] at h
      obtain ⟨he, -⟩ := h
      subst he
      exact Or.inr (Or.inr (Or.inr ⟨rfl, _, rfl⟩))

theorem parseImportEntries_good {types : List FunctionType} :
    ∀ (count : Nat) (bytes : List Nat) (off : Int) (es : List ImportEntry) (o : Int),
      parseImportEntries bytes off types count = .ok (es, o) →
      ∀ e ∈ es, GoodEntry e := by
  intro count
  induction count with
  | zero =>
    intro bytes off es o h
    simp only [parseImportEntries, Except.ok.injEq, Prod.mk.injEq] at h
    obtain ⟨he, -⟩ := h
    subst he
    intro e he
    simp at he
  | succ n ih =>
    intro bytes off es o h
    simp only [parseImportEntries] at h
    split at h
    · exact absurd h (by simp)
    · next entry o1 heq =>
      split at h
      · exact absurd h (by simp)
      · next es' o2 heq2 =>
        simp only [Except.ok.injEq, Prod.mk.injEq] at h
        obtain ⟨he, -⟩ := h
        subst he
        intro e hmem
        rcases List.mem_cons.mp hmem with rfl | hmem'
        · exact parseImportEntry_good heq
        · exact ih bytes o1 es' o2 heq2 e hmem'

theorem parseSections_good :
    ∀ (fuel : Nat) (bytes : List Nat) (off : Int) (types : List FunctionType)
      (es : List ImportEntry),
      parseSections bytes fuel off types = .ok es → ∀ e ∈ es, GoodEntry e := by
  intro fuel
  induction fuel with
  | zero =>
    intro bytes off types es h
    simp [parseSections] at h
  | succ n ih =>
    intro bytes off types es h
    simp only [parseSections] at h
    split_ifs at h with hm h1 h2
    · split at h
      · exact absurd h (by simp)
      · exact ih _ _ _ _ h
    · split at h
      · exact absurd h (by simp)
      · next imports o2 heq =>
        simp only [Except.ok.injEq] at h
        subst h
        exact parseImportEntries_good _ _ _ _ _ heq
    · exact ih _ _ _ _ h
    · simp only [Except.ok.injEq] at h
      subst h
      intro e he
      simp at he

theorem parseImportsBytes_good {bytes : List Nat} {es : List ImportEntry}
    (h : parseImportsBytes bytes = .ok es) : ∀ e ∈ es, GoodEntry e := by
  unfold parseImportsBytes at h
  split at h
  · exact absurd h (by simp)
  · split at h
    · exact absurd h (by simp)
    · exact parseSections_good _ _ _ _ _ h

theorem parseImports_good {src : BufferSource} {es : List ImportEntry}
    (h : parseImports src = .ok es) : ∀ e ∈ es, GoodEntry e := by
  cases src with
  | uint8Array bytes => exact parseImportsBytes_good h
  | arrayBuffer bytes => exact parseImportsBytes_good h
  | typedArrayView buffer => exact parseImportsBytes_good h
  | dataView buffer => exact parseImportsBytes_good h
  | notABuffer => exact absurd h (by simp [parseImports])

theorem header_checks_iff (bytes : List Nat) :
    (checkBytes bytes 0 [0x00, 0x61, 0x73, 0x6D] 0 = true ∧
      checkBytes bytes 4 [0x01, 0x00, 0x00, 0x00] 0 = true)
      ↔ bytes.take 8 = wasmHeader := by
  rcases bytes with _ | ⟨b0, _ | ⟨b1, _ | ⟨b2, _ | ⟨b3, _ | ⟨b4, _ |
    ⟨b5, _ | ⟨b6, _ | ⟨b7, rest⟩⟩⟩⟩⟩⟩⟩⟩ <;>
    norm_num [checkBytes, jsGet, wasmHeader,
      show ((0 : Int).toNat = 0) from rfl, show ((1 : Int).toNat = 1) from rfl,
      show ((2 : Int).toNat = 2) from rfl, show ((3 : Int).toNat = 3) from rfl,
      show ((4 : Int).toNat = 4) from rfl, show ((5 : Int).toNat = 5) from rfl,
      show ((6 : Int).toNat = 6) from rfl, show ((7 : Int).toNat = 7) from rfl] <;>
    tauto

/-! Statements and proofs of the specification claims. -/

/-- Claim C1: `parseImports` applied to the 16-byte canonical minimal module
returns exactly one import entry, structurally equal to
`{module: "", name: "", kind: "memory", type: {minimum: 1, shared: false,
index: "i32"}}` (names are modelled as their byte sequences, so the empty
string is `[]`, and the absent `maximum` field is `none`). -/
theorem claim_C1_minimal_module :
    parseImports (.uint8Array [0x00, 0x61, 0x73, 0x6D, 0x01, 0x00, 0x00, 0x00,
        0x02, 0x06, 0x01, 0x00, 0x00, 0x02, 0x00, 0x01])
      = .ok [⟨[], [], "memory", .memory ⟨1, false, "i32", none⟩⟩] := by
  rfl

/-- Claim C2 counterexample: the claim says a read or skip beyond the buffer
bounds fails with `UnexpectedEndOfInput` and such decodes abort.  In the
code, `readByte` past the end returns `undefined` (`none`) without error,
and the decode of a 15-byte module whose memory-limits minimum lies past
the end of the buffer completes and returns an entry with `minimum = 0`
(the missing byte is coerced to 0) instead of aborting. -/
theorem claim_C2_counterexample :
    readByte ([] : List Nat) 0 = (none, 1) ∧
    parseImportsBytes [0x00, 0x61, 0x73, 0x6D, 0x01, 0x00, 0x00, 0x00,
        0x02, 0x06, 0x01, 0x00, 0x00, 0x02, 0x00]
      = .ok [⟨[], [], "memory", .memory ⟨0, false, "i32", none⟩⟩] :=
  ⟨rfl, rfl⟩

/-- Claim C2 amended: `readByte` at or past the end of the input returns
`undefined` (`none`) and still advances the offset by one, and `skipBytes`
advances the offset unconditionally; neither can fail (the code has no
end-of-input error), so a decode that reads past the buffer treats the
missing bytes as `undefined` rather than aborting. -/
theorem claim_C2_readByte_no_eof_error (bytes : List Nat) (offset : Int)
    (h : (bytes.length : Int) ≤ offset) :
    readByte bytes offset = (none, offset + 1) ∧
    ∀ count : Int, skipBytes offset count = offset + count := by
  constructor
  · unfold readByte jsGet
    split_ifs with h0
    · rw [List.get?_eq_none.mpr (by omega)]
    · rfl
  · intro count
    rfl

theorem claim_C2_readByte_no_eof_error_witness :
    readByte [0x07] 1 = (none, 2) ∧ ∀ count : Int, skipBytes 1 count = 1 + count :=
  claim_C2_readByte_no_eof_error [0x07] 1 (by norm_num)

/-- Claim C3 counterexample: the claim says every unsigned 32-bit value
round-trips through the LEB128 decoder.  The bytes
`[0x80, 0x80, 0x80, 0x80, 0x08]` are a valid LEB128 encoding of `2 ^ 31`,
yet the decoder returns `-2 ^ 31`, because `result |= (byte & 0x7F) << shift`
uses 32-bit signed arithmetic. -/
theorem claim_C3_counterexample :
    readUnsignedLEB128 [0x80, 0x80, 0x80, 0x80, 0x08] 0 = (-2147483648, 5) ∧
    IsLEB 2147483648 [0x80, 0x80, 0x80, 0x80, 0x08] ∧
    (-2147483648 : Int) ≠ ((2147483648 : Nat) : Int) := by
  refine ⟨rfl, ?_, by norm_num⟩
  have h8 : (2147483648 : Nat) = 0 + 128 * (0 + 128 * (0 + 128 * (0 + 128 * 8))) := by
    norm_num
  rw [h8]
  exact .cont 0 _ _ (by norm_num) (.cont 0 _ _ (by norm_num) (.cont 0 _ _ (by norm_num)
    (.cont 0 _ _ (by norm_num) (.last 8 (by norm_num)))))

/-- Claim C3 amended: for every `n < 2 ^ 31` and every LEB128 encoding of
`n` — including non-minimal encodings with superfluous zero groups —
`readUnsignedLEB128` returns `n` and consumes exactly the encoding; in
particular `[0xAC, 0x02]` decodes to 300 and `[0x01]` to 1.  Values in
`[2 ^ 31, 2 ^ 32)` instead come back reduced into signed 32-bit range. -/
theorem claim_C3_leb128_below_two_pow_31 {n : Nat} {enc : List Nat}
    (h : IsLEB n enc) (hn : n < 2147483648) (pre post : List Nat) :
    readUnsignedLEB128 (pre ++ (enc ++ post)) (pre.length : Int)
      = ((n : Int), (pre.length : Int) + enc.length) :=
  readUnsignedLEB128_at h hn pre post

theorem claim_C3_leb128_below_two_pow_31_witness :
    IsLEB 300 [0xAC, 0x02] ∧ readUnsignedLEB128 [0xAC, 0x02] 0 = (300, 2) ∧
    IsLEB 1 [0x01] ∧ readUnsignedLEB128 [0x01] 0 = (1, 1) := by
  have h300 : IsLEB 300 [0xAC, 0x02] := by
    have h : (300 : Nat) = 0x2C + 128 * 2 := by norm_num
    rw [h]
    exact .cont 0x2C 2 [0x02] (by norm_num) (.last 2 (by norm_num))
  have h1 : IsLEB 1 [0x01] := .last 1 (by norm_num)
  refine ⟨h300, ?_, h1, ?_⟩
  · simpa using claim_C3_leb128_below_two_pow_31 h300 (by norm_num) [] []
  · simpa using claim_C3_leb128_below_two_pow_31 h1 (by norm_num) [] []

/-- Claim C4 counterexample: the claim says a set has-maximum flag always
yields a present `maximum` field, including value 0.  On the table-type
bytes `[0x70, 0x01, 0x00, 0x00]` (funcref, flags bit 0 set, minimum 0,
maximum 0) the code returns a `TableType` with no `maximum` field, because
`if (maximum)` treats the decoded 0 as falsy. -/
theorem claim_C4_counterexample :
    parseTableType [0x70, 0x01, 0x00, 0x00] 0 = .ok (⟨"funcref", 0, none⟩, 4) ∧
    (none : Option Int) ≠ some 0 :=
  ⟨rfl, by simp⟩

/-- Claim C4 amended: when the limits flags byte has bit 0 set,
`parseTableType` keeps the decoded maximum exactly when it is nonzero (a
decoded maximum of 0 is dropped by the JavaScript truthiness test); when
bit 0 is clear the returned `TableType` has no maximum field. -/
theorem claim_C4_table_maximum_truthiness :
    (∀ (eb : Nat) (el : String), (eb = 0x70 ∧ el = "funcref") ∨ (eb = 0x6F ∧ el = "externref") →
      ∀ (flags minN maxN : Nat) (minEnc maxEnc : List Nat),
        IsLEB minN minEnc → minN < 2147483648 →
        IsLEB maxN maxEnc → maxN < 2147483648 →
        flags &&& 1 ≠ 0 →
        ∀ pre post : List Nat,
        ∃ o, parseTableType (pre ++ ((eb :: (flags :: (minEnc ++ maxEnc))) ++ post))
            (pre.length : Int)
          = .ok (⟨el, (minN : Int), if maxN = 0 then none else some (maxN : Int)⟩, o)) ∧
    (∀ (eb : Nat) (el : String), (eb = 0x70 ∧ el = "funcref") ∨ (eb = 0x6F ∧ el = "externref") →
      ∀ (flags minN : Nat) (minEnc : List Nat),
        IsLEB minN minEnc → minN < 2147483648 →
        flags &&& 1 = 0 →
        ∀ pre post : List Nat,
        ∃ o, parseTableType (pre ++ ((eb :: (flags :: minEnc)) ++ post)) (pre.length : Int)
          = .ok (⟨el, (minN : Int), none⟩, o)) := by
  constructor
  · intro eb el hel flags minN maxN minEnc maxEnc hmin hminlt hmax hmaxlt hflag pre post
    have hmt : LimitsEnc ⟨(minN : Int), decide (flags &&& 2 ≠ 0),
        if flags &&& 4 ≠ 0 then "i64" else "i32", some (maxN : Int)⟩
        (flags :: (minEnc ++ maxEnc)) :=
      ⟨flags, minEnc, minN, hmin, hminlt,
        Or.inr ⟨hflag, maxEnc, maxN, hmax, hmaxlt, rfl, rfl⟩⟩
    have htt : TableEnc ⟨el, (minN : Int), if maxN = 0 then none else some (maxN : Int)⟩
        (eb :: (flags :: (minEnc ++ maxEnc))) := by
      refine ⟨eb, el, _, flags :: (minEnc ++ maxEnc), hel, hmt, rfl, ?_⟩
      by_cases hz : maxN = 0
      · subst hz
        simp [jsTruthy]
      · simp [jsTruthy, hz]
    exact ⟨_, parseTableType_at htt pre post⟩
  · intro eb el hel flags minN minEnc hmin hminlt hflag pre post
    have hmt : LimitsEnc ⟨(minN : Int), decide (flags &&& 2 ≠ 0),
        if flags &&& 4 ≠ 0 then "i64" else "i32", none⟩ (flags :: minEnc) :=
      ⟨flags, minEnc, minN, hmin, hminlt, Or.inl ⟨hflag, rfl, rfl⟩⟩
    have htt : TableEnc ⟨el, (minN : Int), none⟩ (eb :: (flags :: minEnc)) := by
      refine ⟨eb, el, _, flags :: minEnc, hel, hmt, rfl, ?_⟩
      simp [jsTruthy]
    exact ⟨_, parseTableType_at htt pre post⟩

theorem claim_C4_table_maximum_truthiness_witness :
    (∃ o, parseTableType [0x70, 0x01, 0x00, 0x05] 0
        = .ok (⟨"funcref", 0, some 5⟩, o)) ∧
    (∃ o, parseTableType [0x6F, 0x00, 0x03] 0 = .ok (⟨"externref", 3, none⟩, o)) := by
  constructor
  · have h := claim_C4_table_maximum_truthiness.1 0x70 "funcref" (Or.inl ⟨rfl, rfl⟩)
      0x01 0 5 [0x00] [0x05] (.last 0 (by norm_num)) (by norm_num)
      (.last 5 (by norm_num)) (by norm_num) (by norm_num) [] []
    obtain ⟨o, ho⟩ := h
    exact ⟨o, by simpa using ho⟩
  · have h := claim_C4_table_maximum_truthiness.2 0x6F "externref" (Or.inr ⟨rfl, rfl⟩)
      0x00 3 [0x03] (.last 3 (by norm_num)) (by norm_num) (by norm_num) [] []
    obtain ⟨o, ho⟩ := h
    exact ⟨o, by simpa using ho⟩

/-- Claim C5: a function import whose LEB128 type index `i` is in range of
the decoded function-type list resolves to the `i`-th function type; in
particular the module with one type `(parameters [i32], results [])` and one
function import referencing index 0 decodes to
`{kind: "function", type: {parameters: ["i32"], results: []}}`. -/
theorem claim_C5_function_import_type_lookup :
    (∀ (ts : List FunctionType) (m n mEnc nEnc idxEnc : List Nat) (i : Nat)
        (ft : FunctionType) (pre post : List Nat),
      NameEnc m mEnc → NameEnc n nEnc → IsLEB i idxEnc → i < 2147483648 →
      ts.get? i = some ft →
      ∃ o, parseImportEntry (pre ++ ((mEnc ++ (nEnc ++ (0x00 :: idxEnc))) ++ post))
          (pre.length : Int) ts = .ok (⟨m, n, "function", .function (some ft)⟩, o)) ∧
    parseImportsBytes [0x00, 0x61, 0x73, 0x6D, 0x01, 0x00, 0x00, 0x00,
        0x01, 0x05, 0x01, 0x60, 0x01, 0x7F, 0x00,
        0x02, 0x05, 0x01, 0x00, 0x00, 0x00, 0x00]
      = .ok [⟨[], [], "function", .function (some ⟨["i32"], []⟩)⟩] := by
  constructor
  · intro ts m n mEnc nEnc idxEnc i ft pre post hm hn hi hilt hts
    have h := parseImportEntry_at (@EntryEnc.function ts m n mEnc nEnc i idxEnc hm hn hi hilt) pre post
    rw [hts] at h
    exact ⟨_, h⟩
  · rfl

theorem claim_C5_function_import_type_lookup_witness :
    ∃ o, parseImportEntry [0x00, 0x00, 0x00, 0x00] 0 [⟨["i32"], []⟩]
        = .ok (⟨[], [], "function", .function (some ⟨["i32"], []⟩)⟩, o) := by
  have h := claim_C5_function_import_type_lookup.1 [⟨["i32"], []⟩] [] [] [0x00] [0x00]
    [0x00] 0 ⟨["i32"], []⟩ [] []
    ⟨[0x00], .last 0 (by norm_num), by norm_num, by simp⟩
    ⟨[0x00], .last 0 (by norm_num), by norm_num, by simp⟩
    (.last 0 (by norm_num)) (by norm_num) rfl
  obtain ⟨o, ho⟩ := h
  exact ⟨o, by simpa using ho⟩

/-- Claim C6: once the import section is reached and its declared entries
are well-formed, `parseImports` returns exactly those entries, and the
result does not depend on any byte after the import section's entries —
appending, altering or truncating the trailing bytes leaves the result
unchanged (instantiate `tail` and `tail'` accordingly, e.g. `tail' = []`);
a zero-count import section yields `[]` even when further bytes follow. -/
theorem claim_C6_import_section_short_circuit
    {k : Nat} {tys : List FunctionType} {secs : List Nat} (hsecs : SecsEnc k tys secs)
    {sz : Nat} {sizeEnc : List Nat} (hsz : IsLEB sz sizeEnc) (hszlt : sz < 2147483648)
    {entries : List ImportEntry} {cntEnc : List Nat}
    (hcnt : IsLEB entries.length cntEnc) (hcntlt : entries.length < 2147483648)
    {ebytes : List Nat} (hents : EntriesEnc tys entries ebytes)
    (tail tail' : List Nat) :
    parseImportsBytes (wasmHeader
        ++ (secs ++ (0x02 :: (sizeEnc ++ (cntEnc ++ (ebytes ++ tail)))))) = .ok entries ∧
    parseImportsBytes (wasmHeader
        ++ (secs ++ (0x02 :: (sizeEnc ++ (cntEnc ++ (ebytes ++ tail))))))
      = parseImportsBytes (wasmHeader
        ++ (secs ++ (0x02 :: (sizeEnc ++ (cntEnc ++ (ebytes ++ tail')))))) := by
  have h1 := parseImportsBytes_structured hsecs hsz hszlt hcnt hcntlt hents tail
  have h2 := parseImportsBytes_structured hsecs hsz hszlt hcnt hcntlt hents tail'
  exact ⟨h1, h1.trans h2.symm⟩

theorem claim_C6_import_section_short_circuit_witness :
    (parseImportsBytes [0x00, 0x61, 0x73, 0x6D, 0x01, 0x00, 0x00, 0x00,
        0x02, 0x06, 0x00, 0xFF, 0xAB] = .ok [] ∧
      parseImportsBytes [0x00, 0x61, 0x73, 0x6D, 0x01, 0x00, 0x00, 0x00,
          0x02, 0x06, 0x00, 0xFF, 0xAB]
        = parseImportsBytes [0x00, 0x61, 0x73, 0x6D, 0x01, 0x00, 0x00, 0x00,
            0x02, 0x06, 0x00]) := by
  have h := @claim_C6_import_section_short_circuit 0 [] [] SecsEnc.nil
    6 [0x06] (.last 6 (by norm_num)) (by norm_num)
    [] [0x00] (.last 0 (by norm_num)) (by norm_num)
    [] EntriesEnc.nil [0xFF, 0xAB] []
  exact ⟨by simpa using h.1, by simpa using h.2⟩

/-- Claim C7: `parseImports` yields structurally identical results on a raw
`Uint8Array`, on the `ArrayBuffer` holding the same bytes, and on a
typed-array or `DataView` view over the same underlying bytes — all four
are normalized to the same flat byte sequence before decoding. -/
theorem claim_C7_input_normalization (bytes : List Nat) :
    parseImports (.uint8Array bytes) = parseImports (.arrayBuffer bytes) ∧
    parseImports (.uint8Array bytes) = parseImports (.typedArrayView bytes) ∧
    parseImports (.uint8Array bytes) = parseImports (.dataView bytes) :=
  ⟨rfl, rfl, rfl⟩

/-- Claim C8 counterexample: the claim says every returned entry's type
record has exactly the shape of its kind (a `FunctionType` for kind
`"function"`).  The module with a function import of type index 0 and no
type section decodes successfully, but its single entry has kind
`"function"` with an absent (`undefined`, here `none`) payload — not a
`FunctionType` record. -/
theorem claim_C8_counterexample :
    parseImports (.uint8Array [0x00, 0x61, 0x73, 0x6D, 0x01, 0x00, 0x00, 0x00,
        0x02, 0x05, 0x01, 0x00, 0x00, 0x00, 0x00])
      = .ok [⟨[], [], "function", ImportType.function none⟩] ∧
    ¬ ∃ t : FunctionType, ImportType.function none = ImportType.function (some t) :=
  ⟨rfl, by simp⟩

/-- Claim C8 amended: every entry of a successful `parseImports` result
carries one of the four kinds `"function"`, `"table"`, `"memory"`,
`"global"` (from discriminant bytes 0x00–0x03), and its type payload is the
constructor of that kind and no other: exactly a `TableType`, `MemoryType`
or `GlobalType` record for those kinds, and for kind `"function"` either a
`FunctionType` record or the absent (`undefined`) payload produced by an
out-of-range type index. -/
theorem claim_C8_tagged_union_shape {src : BufferSource} {es : List ImportEntry}
    (h : parseImports src = .ok es) :
    ∀ e ∈ es,
      (e.kind = "function" ∧ ∃ t, e.type = ImportType.function t) ∨
        (e.kind = "table" ∧ ∃ t, e.type = ImportType.table t) ∨
        (e.kind = "memory" ∧ ∃ t, e.type = ImportType.memory t) ∨
        (e.kind = "global" ∧ ∃ t, e.type = ImportType.global t) :=
  parseImports_good h

theorem claim_C8_tagged_union_shape_witness :
    ((⟨[], [], "memory", ImportType.memory ⟨1, false, "i32", none⟩⟩ : ImportEntry).kind
          = "function" ∧
        ∃ t, (⟨[], [], "memory", ImportType.memory ⟨1, false, "i32", none⟩⟩ :
          ImportEntry).type = ImportType.function t) ∨
      ((⟨[], [], "memory", ImportType.memory ⟨1, false, "i32", none⟩⟩ : ImportEntry).kind
          = "table" ∧
        ∃ t, (⟨[], [], "memory", ImportType.memory ⟨1, false, "i32", none⟩⟩ :
          ImportEntry).type = ImportType.table t) ∨
      ((⟨[], [], "memory", ImportType.memory ⟨1, false, "i32", none⟩⟩ : ImportEntry).kind
          = "memory" ∧
        ∃ t, (⟨[], [], "memory", ImportType.memory ⟨1, false, "i32", none⟩⟩ :
          ImportEntry).type = ImportType.memory t) ∨
      ((⟨[], [], "memory", ImportType.memory ⟨1, false, "i32", none⟩⟩ : ImportEntry).kind
          = "global" ∧
        ∃ t, (⟨[], [], "memory", ImportType.memory ⟨1, false, "i32", none⟩⟩ :
          ImportEntry).type = ImportType.global t) :=
  @claim_C8_tagged_union_shape
    (.uint8Array [0x00, 0x61, 0x73, 0x6D, 0x01, 0x00, 0x00, 0x00,
      0x02, 0x06, 0x01, 0x00, 0x00, 0x02, 0x00, 0x01])
    [⟨[], [], "memory", ImportType.memory ⟨1, false, "i32", none⟩⟩] rfl
    ⟨[], [], "memory", ImportType.memory ⟨1, false, "i32", none⟩⟩ (List.Mem.head _)

/-- Claim C9: any input whose first 8 bytes are not exactly the magic number
followed by version 1 — including inputs shorter than 8 bytes — fails the
header check, producing the magic-number error or the version error before
any section is examined, and no import entries are produced. -/
theorem claim_C9_header_check (bytes : List Nat) (h : bytes.take 8 ≠ wasmHeader) :
    parseImportsBytes bytes = .error (.expectedBytes [0x00, 0x61, 0x73, 0x6D] 0) ∨
    parseImportsBytes bytes = .error (.expectedBytes [0x01, 0x00, 0x00, 0x00] 4) := by
  by_cases hc1 : checkBytes bytes 0 [0x00, 0x61, 0x73, 0x6D] 0 = true
  · by_cases hc2 : checkBytes bytes 4 [0x01, 0x00, 0x00, 0x00] 0 = true
    · exact absurd ((header_checks_iff bytes).mp ⟨hc1, hc2⟩) h
    · right
      simp only [parseImportsBytes, parseMagicNumber, parseVersion, assertBytes]
      rw [if_pos hc1]
      norm_num
      rw [if_neg hc2]
  · left
    simp only [parseImportsBytes, parseMagicNumber, assertBytes]
    rw [if_neg hc1]

theorem claim_C9_header_check_witness :
    ([] : List Nat).take 8 ≠ wasmHeader ∧
    (parseImportsBytes [] = .error (.expectedBytes [0x00, 0x61, 0x73, 0x6D] 0) ∨
      parseImportsBytes [] = .error (.expectedBytes [0x01, 0x00, 0x00, 0x00] 4)) :=
  ⟨by decide, claim_C9_header_check [] (by decide)⟩

/-- Claim C10: a function import whose decoded type index is out of range —
at or beyond the length of the decoded function-type list, including when no
type section preceded the import section — raises no error: the entry is
returned with kind `"function"` and an absent (`undefined`, here `none`)
type payload. -/
theorem claim_C10_out_of_range_type_index :
    (∀ (ts : List FunctionType) (m n mEnc nEnc idxEnc : List Nat) (i : Nat)
        (pre post : List Nat),
      NameEnc m mEnc → NameEnc n nEnc → IsLEB i idxEnc → i < 2147483648 →
      ts.length ≤ i →
      ∃ o, parseImportEntry (pre ++ ((mEnc ++ (nEnc ++ (0x00 :: idxEnc))) ++ post))
          (pre.length : Int) ts = .ok (⟨m, n, "function", .function none⟩, o)) ∧
    parseImportsBytes [0x00, 0x61, 0x73, 0x6D, 0x01, 0x00, 0x00, 0x00,
        0x02, 0x05, 0x01, 0x00, 0x00, 0x00, 0x00]
      = .ok [⟨[], [], "function", .function none⟩] := by
  constructor
  · intro ts m n mEnc nEnc idxEnc i pre post hm hn hi hilt hle
    have h := parseImportEntry_at (@EntryEnc.function ts m n mEnc nEnc i idxEnc hm hn hi hilt) pre post
    rw [List.get?_eq_none.mpr hle] at h
    exact ⟨_, h⟩
  · rfl

theorem claim_C10_out_of_range_type_index_witness :
    ∃ o, parseImportEntry [0x00, 0x00, 0x00, 0x00] 0 ([] : List FunctionType)
        = .ok (⟨[], [], "function", .function none⟩, o) := by
  have h := claim_C10_out_of_range_type_index.1 [] [] [] [0x00] [0x00] [0x00] 0 [] []
    ⟨[0x00], .last 0 (by norm_num), by norm_num, by simp⟩
    ⟨[0x00], .last 0 (by norm_num), by norm_num, by simp⟩
    (.last 0 (by norm_num)) (by norm_num) (by norm_num)
  obtain ⟨o, ho⟩ := h
  exact ⟨o, by simpa using ho⟩

end WasmImports
